import Mathlib

/-!
Feather Server (servidor.c): a shallow embedding

The C program is embedded as follows.

* A byte is a natural number (`0` is the NUL terminator, `32` the space).
* A memory block (`malloc` result or stack array) is a size together with its
  contents; a block obtained from `malloc`, and a stack array, start with
  arbitrary contents, which every function receives as an argument.
* An access outside a block, and a NULL dereference, are undefined behaviour
  in C; the embedding makes them an explicit outcome (`Anomalia`).
* System calls are events of a trace; what the operating system answers is
  read from an environment record.
* After `fork` one process is followed: the one that sees the value of `fork`
  given by the environment.
* Not part of the runs: `free`, the option parsing of `argp_parse`, and the
  asynchronous SIGINT handler `noMorire`.
-/

namespace Feather

/-! ## Memory -/

/-- The ways in which a run leaves defined behaviour. `combustible` is the
exhaustion of the recursion bound of a scan; the scans never produce it
(`copiaNombre_combustible`, `cadenaDesde_combustible`). -/
inductive Anomalia where
  | lecturaFuera (indice : Nat)
  | escrituraFuera (indice : Nat)
  | punteroNulo
  | combustible
  deriving DecidableEq

/-- A block of `tam` bytes; `dat i` is the byte at index `i`. -/
structure Bloque where
  tam : Nat
  dat : Nat → Nat

/-- The bytes of a string literal. -/
def bytes (s : String) : List Nat := s.toList.map Char.toNat

/-- Read of `b[i]`. -/
def lee (b : Bloque) (i : Nat) : Except Anomalia Nat :=
  if i < b.tam then .ok (b.dat i) else .error (.lecturaFuera i)

/-- Contents of a block after `b[i] = v`. -/
def Bloque.pon (b : Bloque) (i v : Nat) : Bloque :=
  ⟨b.tam, fun k => if k = i then v else b.dat k⟩

/-- Assignment `b[i] = v`. -/
def escribe (b : Bloque) (i v : Nat) : Except Anomalia Bloque :=
  if i < b.tam then .ok (b.pon i v) else .error (.escrituraFuera i)

/-- Assignment of the bytes `l` to `b[i], b[i+1], ...`, in order. -/
def escribeLista : List Nat → Bloque → Nat → Except Anomalia Bloque
  | [], b, _ => .ok b
  | c :: cs, b, i =>
    match escribe b i c with
    | .ok b1 => escribeLista cs b1 (i + 1)
    | .error a => .error a

/-- The C string that starts at `b[i]`: the bytes before the first NUL, as
`strlen`, `strcpy`, `strcat` and `printf("%s")` read them. -/
def cadenaDesde (b : Bloque) : Nat → Nat → Except Anomalia (List Nat)
  | 0, _ => .error .combustible
  | fuel + 1, i =>
    match lee b i with
    | .error a => .error a
    | .ok c =>
      if c = 0 then .ok []
      else
        match cadenaDesde b fuel (i + 1) with
        | .ok r => .ok (c :: r)
        | .error a => .error a

/-- The C string held by the block `b`. -/
def cadena (b : Bloque) : Except Anomalia (List Nat) :=
  cadenaDesde b (b.tam + 1) 0

/-- Library call `strcpy(dst, s)`, for a source string `s` (without its NUL). -/
def strcpy (dst : Bloque) (s : List Nat) : Except Anomalia Bloque :=
  escribeLista (s ++ [0]) dst 0

/-- Library call `strcat(dst, s)`, for a source string `s` (without its NUL). -/
def strcat (dst : Bloque) (s : List Nat) : Except Anomalia Bloque :=
  match cadena dst with
  | .ok d => escribeLista (s ++ [0]) dst d.length
  | .error a => .error a

/-! ## obtenNombreArchivo (servidor.c, lines 185-204) -/

/-- Loop `while(texto[i] != ' ')` of `obtenNombreArchivo`: copies `texto[i]` to
`nombre[j]` and advances both indices until `texto[i]` is a space. Gives the
name block and the final `indiceSiguienteNombre`. -/
def copiaNombre (texto : Bloque) : Nat → Bloque → Nat → Nat → Except Anomalia (Bloque × Nat)
  | 0, _, _, _ => .error .combustible
  | fuel + 1, nombre, i, j =>
    match lee texto i with
    | .error a => .error a
    | .ok c =>
      if c = 32 then .ok (nombre, j)
      else
        match escribe nombre j c with
        | .error a => .error a
        | .ok nombre1 => copiaNombre texto fuel nombre1 (i + 1) (j + 1)

/-- Size of the block `obtenNombreArchivo` allocates. -/
def tamNombre : Nat := 16384

/-- Function `obtenNombreArchivo(texto)`; `basura` is the content of the block
`malloc` returns. The terminator is stored at `indiceSiguienteNombre+1`. -/
def obtenNombreArchivo (basura : Nat → Nat) (texto : Bloque) : Except Anomalia Bloque :=
  let nombre : Bloque := ⟨tamNombre, basura⟩
  match copiaNombre texto (texto.tam + 1) nombre 4 0 with
  | .error a => .error a
  | .ok (nombre1, indiceSiguienteNombre) => escribe nombre1 (indiceSiguienteNombre + 1) 0

/-- A block that holds exactly the bytes `l`. -/
def Bloque.deLista (l : List Nat) : Bloque := ⟨l.length, fun i => l.getD i 0⟩

/-- The C string of the block a function returns. -/
def cadenaDe (r : Except Anomalia Bloque) : Except Anomalia (List Nat) :=
  match r with
  | .ok b => cadena b
  | .error a => .error a

/-! ## Processes: traces and outcomes -/

/-- The system and library calls a process issues, in order. `write` carries
the bytes handed to the call, `fopen` the file name, `printf` the format and
the string printed for its last `%s` (empty when the format has none). -/
inductive Evento where
  | socket
  | setsockopt (fd : Int)
  | bind (fd : Int) (puertoRed : Int)
  | listen (fd : Int)
  | signal
  | select (fd : Int)
  | accept (fd : Int)
  | fork
  | read (fd : Int)
  | write (fd : Int) (datos : List Nat)
  | close (fd : Int)
  | fopen (nombre : List Nat)
  | fclose
  | printf (formato : String) (cadena : List Nat)
  | stderr (mensaje : String)
  deriving DecidableEq

/-- How a piece of code ends: it returns a value, the process calls
`exit(estado)`, the run leaves defined behaviour, or (for the endless accept
loop only) the environment script is used up and the server is still running. -/
inductive Desenlace (α : Type) where
  | retorna (a : α)
  | sale (estado : Int)
  | anomalia (a : Anomalia)
  | enCurso
  deriving DecidableEq

/-- A run of a piece of code: the events issued and how it ends. -/
structure Proc (α : Type) where
  traza : List Evento
  fin : Desenlace α
  deriving DecidableEq

/-- Sequencing: the continuation runs only when the first part returns. -/
def Proc.bind {α β : Type} (p : Proc α) (f : α → Proc β) : Proc β :=
  match p.fin with
  | .retorna a => ⟨p.traza ++ (f a).traza, (f a).fin⟩
  | .sale n => ⟨p.traza, .sale n⟩
  | .anomalia x => ⟨p.traza, .anomalia x⟩
  | .enCurso => ⟨p.traza, .enCurso⟩

instance : Monad Proc where
  pure a := ⟨[], .retorna a⟩
  bind := Proc.bind

/-- One event. -/
def emite (ev : Evento) : Proc Unit := ⟨[ev], .retorna ()⟩

/-- A memory computation inside a process. -/
def puro {α : Type} (x : Except Anomalia α) : Proc α :=
  match x with
  | .ok a => ⟨[], .retorna a⟩
  | .error e => ⟨[], .anomalia e⟩

/-- Library call `exit(estado)`. -/
def sale {α : Type} (estado : Int) : Proc α := ⟨[], .sale estado⟩

/-- Function `falla(mensaje)`: prints the message on stderr and exits with 1. -/
def falla {α : Type} (mensaje : String) : Proc α := do
  emite (.stderr mensaje)
  sale 1

/-- Function `verifica(verificado, mensaje)`: fails when the integer is negative. -/
def verifica (verificado : Int) (mensaje : String) : Proc Unit :=
  if verificado < 0 then falla mensaje else pure ()

/-! ## leeArchivo (servidor.c, lines 153-181) -/

/-- Size of the block `leeArchivo` allocates. -/
def tamContenido : Nat := 1000000

/-- Function `leeArchivo(nombreArchivo)`. `fs` is the file system: the bytes of
the file when `fopen` succeeds, `none` when it fails; `basura` is the content
of the block `malloc` returns. The `getc` loop stores the bytes from index 0
and the terminator is stored at `i+1`. A NULL result is `none`. -/
def leeArchivo (fs : List Nat → Option (List Nat)) (basura : Nat → Nat)
    (nombreArchivo : List Nat) : Proc (Option Bloque) := do
  emite (.fopen nombreArchivo)
  let contenido : Bloque := ⟨tamContenido, basura⟩
  match fs nombreArchivo with
  | some bytesArchivo =>
    let contenido ← puro (escribeLista bytesArchivo contenido 0)
    let i := bytesArchivo.length
    let contenido ← puro (escribe contenido (i + 1) 0)
    emite .fclose
    pure (some contenido)
  | none => pure none

/-! ## manejaPeticion (servidor.c, lines 208-268) -/

/-- What the surroundings of one call of `manejaPeticion` supply. -/
structure Entorno where
  /-- Return value of `read`. -/
  lectura : Int
  /-- Content of the stack array `mensaje` once `read` has returned: the bytes
  received, then whatever the stack held. -/
  mensaje : Nat → Nat
  /-- The file system. -/
  fs : List Nat → Option (List Nat)
  /-- Initial content of the block of `obtenNombreArchivo`. -/
  basuraNombre : Nat → Nat
  /-- Initial content of `nombreCompletoArchivo`. -/
  basuraCompleto : Nat → Nat
  /-- Initial content of the block of the first `leeArchivo`. -/
  basuraContenido : Nat → Nat
  /-- Initial content of `respuesta`. -/
  basuraRespuesta : Nat → Nat
  /-- Initial content of the block of `leeArchivo("error")`. -/
  basuraError : Nat → Nat
  /-- Return value of `write`. -/
  escritura : Int

/-- Size of the stack array `mensaje`. -/
def tamMensaje : Nat := 1024

/-- Size of the blocks `nombreCompletoArchivo` and `respuesta`. -/
def tamRespuesta : Nat := 16384

/-- Lines 221-234 of `manejaPeticion`: the block `nombreCompletoArchivo` built
from the parsed name: "html", then "/index.html" when `nombreArchivo[1]` is
NUL and the parsed name otherwise. -/
def nombreCompleto (basura : Nat → Nat) (nombreArchivo : Bloque) : Except Anomalia Bloque := do
  let nombreCompletoArchivo : Bloque := ⟨tamRespuesta, basura⟩
  let nombreCompletoArchivo ← strcpy nombreCompletoArchivo (bytes "html")
  let segundo ← lee nombreArchivo 1
  if segundo = 0 then
    strcat nombreCompletoArchivo (bytes "/index.html")
  else
    strcat nombreCompletoArchivo (← cadena nombreArchivo)

/-- The parsed resource path: the C string of the block `obtenNombreArchivo`
returns for the array `mensaje`. -/
def nombreAnalizado (e : Entorno) : Except Anomalia (List Nat) :=
  cadenaDe (obtenNombreArchivo e.basuraNombre ⟨tamMensaje, e.mensaje⟩)

/-- The file name `manejaPeticion` passes to the first `leeArchivo` (lines
219-237): parse, `nombreCompleto`, and the C string of the result. -/
def nombreResuelto (e : Entorno) : Except Anomalia (List Nat) :=
  match obtenNombreArchivo e.basuraNombre ⟨tamMensaje, e.mensaje⟩ with
  | .error a => .error a
  | .ok nombreArchivo => cadenaDe (nombreCompleto e.basuraCompleto nombreArchivo)

/-- Lines 239-255 of `manejaPeticion`: the block `respuesta`, from the result
of the first `leeArchivo`. With no content the error file is read and
appended without a NULL test. -/
def construyeRespuesta (quiet : Int) (e : Entorno) (contenido : Option Bloque) : Proc Bloque := do
  let respuesta : Bloque := ⟨tamRespuesta, e.basuraRespuesta⟩
  match contenido with
  | some contenido =>
    let respuesta ← puro (strcpy respuesta (bytes "HTTP/1.1 200 OK\r\n\n"))
    puro (strcat respuesta (← puro (cadena contenido)))
  | none =>
    let contenidoError ← leeArchivo e.fs e.basuraError (bytes "error")
    let respuesta ← puro (strcpy respuesta (bytes "HTTP/1.1 404 Not Found\r\n\n"))
    match contenidoError with
    | none => puro (.error .punteroNulo)
    | some contenidoError =>
      let respuesta ← puro (strcat respuesta (← puro (cadena contenidoError)))
      if quiet = 0 then emite (.printf "%sNo se encontró el archivo%s\n" [])
      pure respuesta

/-- Lines 214-268 of `manejaPeticion`: what follows the check of the value of
`read`. Parses the name, reads the file, builds, writes and checks. -/
def trasLectura (quiet : Int) (socketAceptado : Int) (e : Entorno) : Proc Unit := do
  let mensaje : Bloque := ⟨tamMensaje, e.mensaje⟩
  if quiet = 0 then emite (.printf "\n%sPeticion:\n%s%s\n" (← puro (cadena mensaje)))
  let nombreArchivo ← puro (obtenNombreArchivo e.basuraNombre mensaje)
  let nombreCompletoArchivo ← puro (nombreCompleto e.basuraCompleto nombreArchivo)
  let contenido ← leeArchivo e.fs e.basuraContenido (← puro (cadena nombreCompletoArchivo))
  let respuesta ← construyeRespuesta quiet e contenido
  emite (.write socketAceptado (← puro (cadena respuesta)))
  let caracteresEscritos := e.escritura
  if quiet = 0 then emite (.printf "\n%sRespuesta:\n%s%s\n" (← puro (cadena respuesta)))
  verifica caracteresEscritos "No pudo escribirse la respuesta en el socket"

/-- Function `manejaPeticion(socketAceptado)`; `quiet` is the global flag. -/
def manejaPeticion (quiet : Int) (socketAceptado : Int) (e : Entorno) : Proc Unit := do
  emite (.read socketAceptado)
  let caracteresLeidos := e.lectura
  verifica caracteresLeidos "No pudo leerse el mensaje del cliente"
  trasLectura quiet socketAceptado e

/-! ## aceptaConexion, abreConexion, main (servidor.c, lines 282-390) -/

/-- What the surroundings of one call of `aceptaConexion` supply. `fork` is the
value `fork` returns in the process that is followed: positive in the parent,
zero in the child, negative when no child was created. -/
structure EntornoConexion where
  select : Int
  accept : Int
  fork : Int
  peticion : Entorno

/-- Function `aceptaConexion(socketViejo)`, in the process that sees `e.fork`. -/
def aceptaConexion (quiet : Int) (socketViejo : Int) (e : EntornoConexion) : Proc Unit := do
  emite .signal
  emite (.select socketViejo)
  verifica e.select "Una petición tuvo error"
  emite (.accept socketViejo)
  let socketAceptado := e.accept
  verifica socketAceptado "No pudo aceptarse la conexión"
  emite .fork
  let pid := e.fork
  verifica pid "No se pudo crear un nuevo proceso para manejar la petición"
  if pid = 0 then
    emite (.close socketViejo)
    manejaPeticion quiet socketAceptado e.peticion
    emite (.close socketAceptado)
    if quiet = 0 then emite (.printf "%sPetición manejada con éxito\nEsperando al cliente...%s\n" [])
    sale 0
  else
    emite (.close socketAceptado)

/-- Loop `while(1)` of `abreConexion`, for as many turns as the environment
describes connections. -/
def bucle (quiet : Int) (sock : Int) : List EntornoConexion → Proc Unit
  | [] => ⟨[], .enCurso⟩
  | c :: cs => do
    aceptaConexion quiet sock c
    bucle quiet sock cs

/-- What the surroundings of `abreConexion` supply: the return values of
`socket`, `bind` and `listen`, and the connections that arrive. -/
structure EntornoServidor where
  socket : Int
  bind : Int
  listen : Int
  conexiones : List EntornoConexion

/-- Conversion of the `int` argument of `htons` to its 16-bit parameter. -/
def htons (puerto : Int) : Int := puerto % 65536

/-- Function `abreConexion(puerto)`. The value `listen` returns is not used. -/
def abreConexion (quiet : Int) (puerto : Int) (e : EntornoServidor) : Proc Unit := do
  emite .socket
  let sock := e.socket
  verifica sock "No se pudo crear un nuevo socket para el servidor"
  emite (.setsockopt sock)
  emite (.bind sock (htons puerto))
  let resEnlace := e.bind
  verifica resEnlace "Error en el enlace. Intente con otro puerto, por favor"
  emite (.listen sock)
  emite (.printf "%sEsperando al cliente...%s\n" [])
  bucle quiet sock e.conexiones

/-- Port selection of `main` (lines 376-384): `aleat` and `puerto` are the
globals as `argp_parse` leaves them, `azar` the value of `rand()`. -/
def puertoElegido (aleat puerto azar : Int) : Int :=
  if aleat ≠ 0 then
    (Int.tmod azar 63536) + 2000
  else if puerto = 0 then
    8000
  else
    puerto

/-- Function `main` after `argp_parse`. -/
def main (quiet aleat puerto azar : Int) (e : EntornoServidor) : Proc Unit := do
  let puerto := puertoElegido aleat puerto azar
  emite (.printf "%sSe abre la conexión al puerto %d%s\n" [])
  abreConexion quiet puerto e

/-! ## Concrete environments -/

/-- Stack array `mensaje` after a `read` that stored `recibido` over `pila`. -/
def trasRead (recibido : List Nat) (pila : Nat → Nat) : Nat → Nat :=
  fun i => recibido.getD i (pila i)

/-- A file system given by a list of (name, content) pairs. -/
def archivos (l : List (List Nat × List Nat)) : List Nat → Option (List Nat) :=
  fun n => (l.find? (fun par => par.1 = n)).map (fun par => par.2)

/-- An environment in which every block starts filled with the byte `g`. -/
def entornoDe (recibido : List Nat) (g : Nat) (fs : List (List Nat × List Nat)) : Entorno :=
  { lectura := recibido.length, mensaje := trasRead recibido (fun _ => g), fs := archivos fs,
    basuraNombre := fun _ => g, basuraCompleto := fun _ => g, basuraContenido := fun _ => g,
    basuraRespuesta := fun _ => g, basuraError := fun _ => g, escritura := 0 }

/-! ## Observations on traces -/

/-- The (descriptor, bytes) pairs of the `write` calls of a trace. -/
def escritos : List Evento → List (Int × List Nat)
  | [] => []
  | .write fd datos :: t => (fd, datos) :: escritos t
  | _ :: t => escritos t

/-- The file names of the `fopen` calls of a trace. -/
def abiertos : List Evento → List (List Nat)
  | [] => []
  | .fopen nombre :: t => nombre :: abiertos t
  | _ :: t => abiertos t

/-- Number of `close(fd)` calls in a trace. -/
def cierres (fd : Int) (t : List Evento) : Nat := t.count (Evento.close fd)

/-- A run that issues no `close`. -/
def SinClose {α : Type} (p : Proc α) : Prop := ∀ ev ∈ p.traza, ∀ fd, ev ≠ Evento.close fd

/-! ## Lemmas on blocks and C strings -/

theorem lee_dentro {b : Bloque} {i : Nat} (h : i < b.tam) : lee b i = .ok (b.dat i) := by
  simp [lee, h]

theorem lee_fuera {b : Bloque} {i : Nat} (h : b.tam ≤ i) : lee b i = .error (.lecturaFuera i) := by
  have : ¬ i < b.tam := by omega
  simp [lee, this]

theorem escribe_dentro {b : Bloque} {i : Nat} (v : Nat) (h : i < b.tam) :
    escribe b i v = .ok (b.pon i v) := by
  simp [escribe, h]

theorem escribeLista_ok (l : List Nat) : ∀ (b : Bloque) (i : Nat), i + l.length ≤ b.tam →
    ∃ b1, escribeLista l b i = .ok b1 ∧ b1.tam = b.tam ∧
      (∀ k, k < i ∨ i + l.length ≤ k → b1.dat k = b.dat k) ∧
      (∀ k, k < l.length → b1.dat (i + k) = l.getD k 0) := by
  induction l with
  | nil =>
    intro b i _
    exact ⟨b, rfl, rfl, fun _ _ => rfl, fun k hk => absurd hk (Nat.not_lt_zero k)⟩
  | cons c cs ih =>
    intro b i h
    have hlen : (c :: cs).length = cs.length + 1 := rfl
    have hi : i < b.tam := by omega
    obtain ⟨b1, h1, ht, hfuera, hdentro⟩ := ih (b.pon i c) (i + 1) (by simp [Bloque.pon]; omega)
    refine ⟨b1, ?_, ?_, ?_, ?_⟩
    · simp [escribeLista, escribe_dentro c hi, h1]
    · simpa [Bloque.pon] using ht
    · intro k hk
      have h2 := hfuera k (by omega)
      have hne : k ≠ i := by omega
      simpa [Bloque.pon, hne] using h2
    · intro k hk
      cases k with
      | zero =>
        have h2 := hfuera i (by omega)
        simpa [Bloque.pon] using h2
      | succ k =>
        have h2 := hdentro k (by simp at hk; omega)
        have he : i + (k + 1) = i + 1 + k := by omega
        simpa [he] using h2

theorem cadenaDesde_ok (b : Bloque) (l : List Nat) : ∀ (fuel i : Nat), l.length < fuel →
    i + l.length < b.tam → (∀ k, k < l.length → b.dat (i + k) = l.getD k 0) →
    (∀ x ∈ l, x ≠ 0) → b.dat (i + l.length) = 0 → cadenaDesde b fuel i = .ok l := by
  induction l with
  | nil =>
    intro fuel i hf hi _ _ hz
    cases fuel with
    | zero => exact absurd hf (Nat.lt_irrefl 0)
    | succ fuel =>
      have hi2 : i < b.tam := by simpa using hi
      have hz2 : b.dat i = 0 := by simpa using hz
      simp [cadenaDesde, lee_dentro hi2, hz2]
  | cons c cs ih =>
    intro fuel i hf hi hd hnz hz
    have hlen : (c :: cs).length = cs.length + 1 := rfl
    cases fuel with
    | zero => exact absurd hf (Nat.not_lt_zero _)
    | succ fuel =>
      have hi2 : i < b.tam := by omega
      have h0 : b.dat i = c := by simpa using hd 0 (by simp)
      have hc : c ≠ 0 := hnz c (by simp)
      have hrec := ih fuel (i + 1) (by omega) (by omega)
        (fun k hk => by
          have := hd (k + 1) (by simp; omega)
          have he : i + (k + 1) = i + 1 + k := by omega
          simpa [he] using this)
        (fun x hx => hnz x (by simp [hx]))
        (by
          have he : i + (cs.length + 1) = i + 1 + cs.length := by omega
          rw [hlen, he] at hz
          exact hz)
      simp [cadenaDesde, lee_dentro hi2, h0, hc, hrec]

theorem cadenaDesde_inv (b : Bloque) : ∀ (fuel i : Nat) (l : List Nat),
    cadenaDesde b fuel i = .ok l →
    i + l.length < b.tam ∧ (∀ k, k < l.length → b.dat (i + k) = l.getD k 0) ∧
      (∀ x ∈ l, x ≠ 0) ∧ b.dat (i + l.length) = 0 := by
  intro fuel
  induction fuel with
  | zero => intro i l h; simp [cadenaDesde] at h
  | succ fuel ih =>
    intro i l h
    by_cases hi : i < b.tam
    · by_cases hz : b.dat i = 0
      · simp [cadenaDesde, lee_dentro hi, hz] at h
        subst h
        simp [hi, hz]
      · cases hrec : cadenaDesde b fuel (i + 1) with
        | error a => simp [cadenaDesde, lee_dentro hi, hz, hrec] at h
        | ok r =>
          simp [cadenaDesde, lee_dentro hi, hz, hrec] at h
          subst h
          obtain ⟨h1, h2, h3, h4⟩ := ih (i + 1) r hrec
          refine ⟨by simp; omega, ?_, ?_, ?_⟩
          · intro k hk
            cases k with
            | zero => simp
            | succ k =>
              have := h2 k (by simp at hk; omega)
              have he : i + (k + 1) = i + 1 + k := by omega
              simpa [he] using this
          · intro x hx
            rcases List.mem_cons.mp hx with hx | hx
            · subst hx; exact hz
            · exact h3 x hx
          · have he : i + (b.dat i :: r).length = i + 1 + r.length := by
              rw [List.length_cons]; omega
            rw [he]
            exact h4
    · simp [cadenaDesde, lee_fuera (Nat.le_of_not_lt hi)] at h

theorem cadena_ok (b : Bloque) (l : List Nat) (hl : l.length < b.tam)
    (hd : ∀ k, k < l.length → b.dat k = l.getD k 0) (hnz : ∀ x ∈ l, x ≠ 0)
    (hz : b.dat l.length = 0) : cadena b = .ok l := by
  apply cadenaDesde_ok b l (b.tam + 1) 0 (by omega) (by omega)
  · intro k hk; simpa using hd k hk
  · exact hnz
  · simpa using hz

theorem cadena_inv (b : Bloque) (l : List Nat) (h : cadena b = .ok l) :
    l.length < b.tam ∧ (∀ k, k < l.length → b.dat k = l.getD k 0) ∧
      (∀ x ∈ l, x ≠ 0) ∧ b.dat l.length = 0 := by
  have := cadenaDesde_inv b (b.tam + 1) 0 l h
  simpa using this

/-- The scan of a C string never uses up its recursion bound. -/
theorem cadenaDesde_combustible (b : Bloque) : ∀ (fuel i : Nat), 0 < fuel → b.tam < fuel + i →
    cadenaDesde b fuel i ≠ .error .combustible := by
  intro fuel
  induction fuel with
  | zero => intro i h0 _; exact absurd h0 (Nat.lt_irrefl 0)
  | succ fuel ih =>
    intro i _ h
    by_cases hi : i < b.tam
    · by_cases hz : b.dat i = 0
      · simp [cadenaDesde, lee_dentro hi, hz]
      · have hrec := ih (i + 1) (by omega) (by omega)
        cases hc : cadenaDesde b fuel (i + 1) with
        | ok r => simp [cadenaDesde, lee_dentro hi, hz, hc]
        | error a =>
          simp [cadenaDesde, lee_dentro hi, hz, hc]
          intro ha
          exact hrec (by rw [hc, ha])
    · simp [cadenaDesde, lee_fuera (Nat.le_of_not_lt hi)]

theorem cadena_combustible (b : Bloque) : cadena b ≠ .error .combustible :=
  cadenaDesde_combustible b (b.tam + 1) 0 (by omega) (by omega)

/-! ## Lemmas on obtenNombreArchivo -/

/-- The loop of `obtenNombreArchivo` when the first space at or after index `i`
is `d` bytes further, inside the text, and the name block has room. -/
theorem copiaNombre_ok (texto : Bloque) : ∀ (d fuel : Nat) (nombre : Bloque) (i j : Nat),
    d < fuel → i + d < texto.tam → texto.dat (i + d) = 32 →
    (∀ m, m < d → texto.dat (i + m) ≠ 32) → j + d ≤ nombre.tam →
    ∃ n1, copiaNombre texto fuel nombre i j = .ok (n1, j + d) ∧ n1.tam = nombre.tam ∧
      (∀ m, m < d → n1.dat (j + m) = texto.dat (i + m)) ∧
      (∀ m, m < j ∨ j + d ≤ m → n1.dat m = nombre.dat m) := by
  intro d
  induction d with
  | zero =>
    intro fuel nombre i j hf hi hesp _ _
    cases fuel with
    | zero => exact absurd hf (Nat.lt_irrefl 0)
    | succ fuel =>
      have hi2 : i < texto.tam := by simpa using hi
      have he : texto.dat i = 32 := by simpa using hesp
      exact ⟨nombre, by simp [copiaNombre, lee_dentro hi2, he], rfl,
        fun m hm => absurd hm (Nat.not_lt_zero m), fun _ _ => rfl⟩
  | succ d ih =>
    intro fuel nombre i j hf hi hesp hno hcabe
    cases fuel with
    | zero => exact absurd hf (Nat.not_lt_zero _)
    | succ fuel =>
      have hi2 : i < texto.tam := by omega
      have hne : texto.dat i ≠ 32 := by simpa using hno 0 (by omega)
      have hj : j < nombre.tam := by omega
      have e1 : i + 1 + d = i + (d + 1) := by omega
      obtain ⟨n1, h1, ht, hcop, hresto⟩ := ih fuel (nombre.pon j (texto.dat i)) (i + 1) (j + 1)
        (by omega) (by omega) (by rw [e1]; exact hesp)
        (fun m hm => by
          have e2 : i + 1 + m = i + (m + 1) := by omega
          rw [e2]; exact hno (m + 1) (by omega))
        (by simp [Bloque.pon]; omega)
      refine ⟨n1, ?_, ?_, ?_, ?_⟩
      · have e3 : j + 1 + d = j + (d + 1) := by omega
        simp [copiaNombre, lee_dentro hi2, hne, escribe_dentro _ hj, h1, e3]
      · simpa [Bloque.pon] using ht
      · intro m hm
        cases m with
        | zero =>
          have := hresto j (by omega)
          simpa [Bloque.pon] using this
        | succ m =>
          have := hcop m (by omega)
          have e4 : j + (m + 1) = j + 1 + m := by omega
          have e5 : i + (m + 1) = i + 1 + m := by omega
          rw [e4, e5]; exact this
      · intro m hm
        have := hresto m (by omega)
        have hmj : m ≠ j := by omega
        simpa [Bloque.pon, hmj] using this

/-- The loop of `obtenNombreArchivo` when the text has no space from index `i`
on: the read that ends the scan is outside the text. -/
theorem copiaNombre_sinEspacio (texto : Bloque) : ∀ (fuel : Nat) (nombre : Bloque) (i j : Nat),
    texto.tam < fuel + i → 0 < fuel → (∀ m, i ≤ m → m < texto.tam → texto.dat m ≠ 32) →
    j + (texto.tam - i) ≤ nombre.tam →
    copiaNombre texto fuel nombre i j = .error (.lecturaFuera (max i texto.tam)) := by
  intro fuel
  induction fuel with
  | zero => intro _ _ _ _ h0; exact absurd h0 (Nat.lt_irrefl 0)
  | succ fuel ih =>
    intro nombre i j hf _ hno hcabe
    by_cases hi : i < texto.tam
    · have hne : texto.dat i ≠ 32 := hno i (Nat.le_refl i) hi
      have hj : j < nombre.tam := by omega
      have hrec := ih (nombre.pon j (texto.dat i)) (i + 1) (j + 1) (by omega) (by omega)
        (fun m hm hm2 => hno m (by omega) hm2) (by simp [Bloque.pon]; omega)
      have hmax : max (i + 1) texto.tam = max i texto.tam := by omega
      simp [copiaNombre, lee_dentro hi, hne, escribe_dentro _ hj, hrec, hmax]
    · have hmax : max i texto.tam = i := by omega
      simp [copiaNombre, lee_fuera (Nat.le_of_not_lt hi), hmax]

/-- The loop of `obtenNombreArchivo` never uses up its recursion bound. -/
theorem copiaNombre_combustible (texto : Bloque) : ∀ (fuel : Nat) (nombre : Bloque) (i j : Nat),
    0 < fuel → texto.tam < fuel + i →
    copiaNombre texto fuel nombre i j ≠ .error .combustible := by
  intro fuel
  induction fuel with
  | zero => intro _ _ _ h0 _; exact absurd h0 (Nat.lt_irrefl 0)
  | succ fuel ih =>
    intro nombre i j _ h
    by_cases hi : i < texto.tam
    · by_cases he : texto.dat i = 32
      · simp [copiaNombre, lee_dentro hi, he]
      · by_cases hj : j < nombre.tam
        · have hrec := ih (nombre.pon j (texto.dat i)) (i + 1) (j + 1) (by omega) (by omega)
          simpa [copiaNombre, lee_dentro hi, he, escribe_dentro _ hj] using hrec
        · simp [copiaNombre, lee_dentro hi, he, escribe, hj]
    · simp [copiaNombre, lee_fuera (Nat.le_of_not_lt hi)]

/-- The loop of `obtenNombreArchivo` depends only on the bytes of the text from
index `i` up to its first space: two texts that agree there give the same
result. -/
theorem copiaNombre_congr (t1 t2 : Bloque) : ∀ (d f1 f2 : Nat) (nombre : Bloque) (i j : Nat),
    d < f1 → d < f2 → i + d < t1.tam → i + d < t2.tam →
    (∀ m, m ≤ d → t2.dat (i + m) = t1.dat (i + m)) → t1.dat (i + d) = 32 →
    (∀ m, m < d → t1.dat (i + m) ≠ 32) →
    copiaNombre t2 f2 nombre i j = copiaNombre t1 f1 nombre i j := by
  intro d
  induction d with
  | zero =>
    intro f1 f2 nombre i j h1 h2 hi1 hi2 hig hesp _
    cases f1 with
    | zero => exact absurd h1 (Nat.lt_irrefl 0)
    | succ f1 =>
      cases f2 with
      | zero => exact absurd h2 (Nat.lt_irrefl 0)
      | succ f2 =>
        have hi1b : i < t1.tam := by simpa using hi1
        have hi2b : i < t2.tam := by simpa using hi2
        have he1 : t1.dat i = 32 := by simpa using hesp
        have he2 : t2.dat i = 32 := by
          have := hig 0 (Nat.le_refl 0)
          simpa [he1] using this
        simp [copiaNombre, lee_dentro hi1b, lee_dentro hi2b, he1, he2]
  | succ d ih =>
    intro f1 f2 nombre i j h1 h2 hi1 hi2 hig hesp hno
    cases f1 with
    | zero => exact absurd h1 (Nat.not_lt_zero _)
    | succ f1 =>
      cases f2 with
      | zero => exact absurd h2 (Nat.not_lt_zero _)
      | succ f2 =>
        have hi1b : i < t1.tam := by omega
        have hi2b : i < t2.tam := by omega
        have hne1 : t1.dat i ≠ 32 := by simpa using hno 0 (by omega)
        have hig0 : t2.dat i = t1.dat i := by simpa using hig 0 (by omega)
        have e1 : i + 1 + d = i + (d + 1) := by omega
        by_cases hj : j < nombre.tam
        · have hrec := ih f1 f2 (nombre.pon j (t1.dat i)) (i + 1) (j + 1) (by omega) (by omega)
            (by omega) (by omega)
            (fun m hm => by
              have e2 : i + 1 + m = i + (m + 1) := by omega
              rw [e2]; exact hig (m + 1) (by omega))
            (by rw [e1]; exact hesp)
            (fun m hm => by
              have e2 : i + 1 + m = i + (m + 1) := by omega
              rw [e2]; exact hno (m + 1) (by omega))
          simp [copiaNombre, lee_dentro hi1b, lee_dentro hi2b, hig0, hne1, escribe_dentro _ hj,
            hrec]
        · simp [copiaNombre, lee_dentro hi1b, lee_dentro hi2b, hig0, hne1, escribe, hj]

/-- The function `obtenNombreArchivo` never uses up the recursion bound of its
scan: it returns a block or leaves defined behaviour by an access outside a
block. -/
theorem obtenNombreArchivo_combustible (basura : Nat → Nat) (texto : Bloque) :
    obtenNombreArchivo basura texto ≠ .error .combustible := by
  have h := copiaNombre_combustible texto (texto.tam + 1) ⟨tamNombre, basura⟩ 4 0
    (by omega) (by omega)
  intro hcontra
  simp only [obtenNombreArchivo] at hcontra
  cases hc : copiaNombre texto (texto.tam + 1) ⟨tamNombre, basura⟩ 4 0 with
  | error a =>
    rw [hc] at hcontra
    simp only [Except.error.injEq] at hcontra
    exact h (by rw [hc, hcontra])
  | ok r =>
    obtain ⟨n1, j⟩ := r
    rw [hc] at hcontra
    simp only [escribe] at hcontra
    split at hcontra <;> simp at hcontra

/-- What `obtenNombreArchivo` returns when the first space at or after index 4
is at index `4 + d` of the text: bytes `4 .. 4+d-1` of the text at the start of
the block, the byte the allocator left at index `d`, and NUL at index `d+1`. -/
theorem obtenNombreArchivo_ok (basura : Nat → Nat) (texto : Bloque) (d : Nat)
    (hk : 4 + d < texto.tam) (hesp : texto.dat (4 + d) = 32)
    (hno : ∀ m, m < d → texto.dat (4 + m) ≠ 32) (hcabe : d + 1 < tamNombre) :
    ∃ nombre, obtenNombreArchivo basura texto = .ok nombre ∧ nombre.tam = tamNombre ∧
      (∀ m, m < d → nombre.dat m = texto.dat (4 + m)) ∧ nombre.dat d = basura d ∧
      nombre.dat (d + 1) = 0 ∧ (∀ m, d + 1 < m → nombre.dat m = basura m) := by
  obtain ⟨n1, h1, ht, hcop, hresto⟩ := copiaNombre_ok texto d (texto.tam + 1)
    ⟨tamNombre, basura⟩ 4 0 (by omega) hk hesp hno (by simp; omega)
  have hd1 : d + 1 < n1.tam := by rw [ht]; exact hcabe
  refine ⟨n1.pon (d + 1) 0, ?_, ?_, ?_, ?_, ?_, ?_⟩
  · simp only [obtenNombreArchivo, h1, Nat.zero_add]
    exact escribe_dentro 0 hd1
  · simpa [Bloque.pon] using ht
  · intro m hm
    have := hcop m hm
    have hne : m ≠ d + 1 := by omega
    simpa [Bloque.pon, hne] using this
  · have := hresto d (by omega)
    simpa [Bloque.pon] using this
  · simp [Bloque.pon]
  · intro m hm
    have := hresto m (by omega)
    have hne : m ≠ d + 1 := by omega
    simpa [Bloque.pon, hne] using this

/-! ## Lemmas on strcpy, strcat and leeArchivo -/

theorem strcpy_ok (dst : Bloque) (s : List Nat) (hs : s.length < dst.tam)
    (hnz : ∀ x ∈ s, x ≠ 0) :
    ∃ b, strcpy dst s = .ok b ∧ b.tam = dst.tam ∧ cadena b = .ok s := by
  obtain ⟨b, hb, ht, _, hd⟩ := escribeLista_ok (s ++ [0]) dst 0 (by simp; omega)
  refine ⟨b, hb, ht, ?_⟩
  apply cadena_ok b s (by omega) _ hnz
  · have := hd s.length (by simp)
    rw [List.getD_append_right _ _ _ _ (Nat.le_refl _)] at this
    simpa using this
  · intro k hk
    have := hd k (by simp; omega)
    rw [List.getD_append _ _ _ _ hk] at this
    simpa using this

theorem strcat_ok (dst : Bloque) (d s : List Nat) (hd : cadena dst = .ok d)
    (hcabe : d.length + s.length < dst.tam) (hnz : ∀ x ∈ s, x ≠ 0) :
    ∃ b, strcat dst s = .ok b ∧ b.tam = dst.tam ∧ cadena b = .ok (d ++ s) := by
  obtain ⟨_, hdd, hdnz, _⟩ := cadena_inv dst d hd
  obtain ⟨b, hb, ht, hfuera, hdentro⟩ :=
    escribeLista_ok (s ++ [0]) dst d.length (by simp; omega)
  refine ⟨b, by simp [strcat, hd, hb], ht, ?_⟩
  apply cadena_ok b (d ++ s) (by simp; omega)
  · intro k hk
    by_cases hkd : k < d.length
    · rw [List.getD_append _ _ _ _ hkd, hfuera k (Or.inl hkd)]
      exact hdd k hkd
    · have hle : d.length ≤ k := Nat.le_of_not_lt hkd
      have hks : k - d.length < s.length := by simp at hk; omega
      rw [List.getD_append_right _ _ _ _ hle]
      have := hdentro (k - d.length) (by simp; omega)
      rw [List.getD_append _ _ _ _ hks] at this
      have e : d.length + (k - d.length) = k := by omega
      rw [e] at this
      exact this
  · intro x hx
    rcases List.mem_append.mp hx with hx | hx
    · exact hdnz x hx
    · exact hnz x hx
  · have := hdentro s.length (by simp)
    rw [List.getD_append_right _ _ _ _ (Nat.le_refl _)] at this
    simpa using this

/-- The run of `leeArchivo` on a file that opens: the block holds the bytes of
the file from index 0, the byte the allocator left right after them, and NUL
one index further. -/
theorem leeArchivo_abre (fs : List Nat → Option (List Nat)) (basura : Nat → Nat)
    (f c : List Nat) (h : fs f = some c) (hc : c.length + 1 < tamContenido) :
    ∃ b, leeArchivo fs basura f = ⟨[.fopen f, .fclose], .retorna (some b)⟩ ∧
      b.tam = tamContenido ∧ (∀ k, k < c.length → b.dat k = c.getD k 0) ∧
      b.dat c.length = basura c.length ∧ b.dat (c.length + 1) = 0 := by
  obtain ⟨b1, h1, ht, hfuera, hdentro⟩ :=
    escribeLista_ok c ⟨tamContenido, basura⟩ 0 (by simp; omega)
  have hd1 : c.length + 1 < b1.tam := by rw [ht]; exact hc
  refine ⟨b1.pon (c.length + 1) 0, ?_, ?_, ?_, ?_, ?_⟩
  · simp [leeArchivo, h, h1, escribe_dentro 0 hd1, bind, Proc.bind, emite, puro, pure]
  · simpa [Bloque.pon] using ht
  · intro k hk
    have := hdentro k hk
    have hne : k ≠ c.length + 1 := by omega
    simpa [Bloque.pon, hne] using this
  · have := hfuera c.length (Or.inr (by omega))
    simpa [Bloque.pon] using this
  · simp [Bloque.pon]

theorem leeArchivo_noAbre (fs : List Nat → Option (List Nat)) (basura : Nat → Nat)
    (f : List Nat) (h : fs f = none) :
    leeArchivo fs basura f = ⟨[.fopen f], .retorna none⟩ := by
  simp [leeArchivo, h, bind, Proc.bind, emite, pure]

/-- The C string of a block that holds the bytes `c` (none of them NUL), one
byte `g`, and NUL: `c`, followed by `g` when `g` is not NUL. -/
theorem cadena_conResto (b : Bloque) (c : List Nat) (hl : c.length + 1 < b.tam)
    (hd : ∀ k, k < c.length → b.dat k = c.getD k 0) (hnz : ∀ x ∈ c, x ≠ 0)
    (hz : b.dat (c.length + 1) = 0) :
    cadena b = .ok (c ++ if b.dat c.length = 0 then [] else [b.dat c.length]) := by
  by_cases hg : b.dat c.length = 0
  · simp only [hg, if_true, List.append_nil]
    exact cadena_ok b c (by omega) hd hnz hg
  · simp only [hg, if_false]
    apply cadena_ok b (c ++ [b.dat c.length]) (by simp; omega)
    · intro k hk
      by_cases hkc : k < c.length
      · rw [List.getD_append _ _ _ _ hkc]; exact hd k hkc
      · have hke : k = c.length := by simp at hk; omega
        subst hke
        rw [List.getD_append_right _ _ _ _ (Nat.le_refl _)]
        simp
    · intro x hx
      rcases List.mem_append.mp hx with hx | hx
      · exact hnz x hx
      · have : x = b.dat c.length := by simpa using hx
        rw [this]; exact hg
    · simpa using hz

/-! ## The parser: claims C1 and C7 -/

theorem bytes_GET : bytes "GET " = [71, 69, 84, 32] := by decide

/-- What the caller of `obtenNombreArchivo` gets for a request line
"GET p HTTP/1.1", for a path `p` without space and without NUL: the C string
of the block returned is `p` followed by the byte the allocator left at index
`p.length`, unless that byte is NUL. -/
theorem obtenNombreArchivo_cadena (basura : Nat → Nat) (texto : Bloque) (p : List Nat)
    (hsp : ∀ x ∈ p, x ≠ 32) (hnz : ∀ x ∈ p, x ≠ 0)
    (hlen : (bytes "GET " ++ p ++ bytes " HTTP/1.1").length ≤ texto.tam)
    (hini : ∀ k, k < (bytes "GET " ++ p ++ bytes " HTTP/1.1").length →
      texto.dat k = (bytes "GET " ++ p ++ bytes " HTTP/1.1").getD k 0)
    (hcabe : p.length + 1 < tamNombre) :
    cadenaDe (obtenNombreArchivo basura texto)
      = .ok (p ++ if basura p.length = 0 then [] else [basura p.length]) := by
  have hcola : (bytes " HTTP/1.1").length = 9 := by decide
  have hcola0 : (bytes " HTTP/1.1").getD 0 0 = 32 := by decide
  rw [bytes_GET] at hlen hini
  have hL : ([71, 69, 84, 32] ++ p ++ bytes " HTTP/1.1").length = 4 + p.length + 9 := by
    simp [hcola]; omega
  rw [hL] at hlen hini
  have hp : ∀ m, m < p.length → texto.dat (4 + m) = p.getD m 0 := by
    intro m hm
    rw [hini (4 + m) (by omega)]
    rw [List.getD_append _ _ _ _ (by simp; omega)]
    rw [List.getD_append_right _ _ _ _ (by simp)]
    simp
  have hesp : texto.dat (4 + p.length) = 32 := by
    rw [hini (4 + p.length) (by omega)]
    rw [List.getD_append_right _ _ _ _ (by simp; omega)]
    have e : 4 + p.length - ([71, 69, 84, 32] ++ p).length = 0 := by simp; omega
    rw [e]; exact hcola0
  have hno : ∀ m, m < p.length → texto.dat (4 + m) ≠ 32 := by
    intro m hm
    rw [hp m hm]
    apply hsp
    rw [List.getD_eq_getElem _ _ hm]
    exact List.getElem_mem hm
  obtain ⟨nombre, hn, ht, hcop, hg, hz, _⟩ :=
    obtenNombreArchivo_ok basura texto p.length (by omega) hesp hno hcabe
  rw [hn]
  simp only [cadenaDe]
  rw [← hg]
  exact cadena_conResto nombre p (by rw [ht]; exact hcabe)
    (fun k hk => by rw [hcop k hk]; exact hp k hk) hnz hz

/-- C1 (code defect, evaluated): for the request "GET /a HTTP/1.1" in the
1024-byte array of `manejaPeticion` and a block from the allocator that holds
the byte 'X', the string `obtenNombreArchivo` returns is "/aX": the terminator
is stored one index too far and the string is not terminated right after the
last character of the path. -/
theorem obtenNombreArchivo_terminador :
    cadenaDe (obtenNombreArchivo (fun _ => 88)
      ⟨tamMensaje, trasRead (bytes "GET /a HTTP/1.1\r\n\r\n") (fun _ => 0)⟩)
      = .ok (bytes "/aX") := rfl

/-- C7 (counterexample): the 5-byte buffer "GET /" has no space from index 4
on; the scan reads index 5, outside the buffer, and the 3-byte buffer "GET"
is read at index 4. No malformed-request outcome exists. -/
theorem obtenNombreArchivo_fuera :
    obtenNombreArchivo (fun _ => 0) (Bloque.deLista (bytes "GET /")) = .error (.lecturaFuera 5) ∧
    obtenNombreArchivo (fun _ => 0) (Bloque.deLista (bytes "GET")) = .error (.lecturaFuera 4) :=
  ⟨rfl, rfl⟩

/-- For every buffer of `n` bytes without a space at the indices `4 .. n-1`
(and `n ≤ 16388`), the scan of `obtenNombreArchivo` ends in a read outside the
buffer, at index `n` (at index 4 when `n < 4`). -/
theorem obtenNombreArchivo_sinEspacio (basura : Nat → Nat) (texto : Bloque)
    (hno : ∀ m, 4 ≤ m → m < texto.tam → texto.dat m ≠ 32) (hcabe : texto.tam ≤ tamNombre + 4) :
    obtenNombreArchivo basura texto = .error (.lecturaFuera (max 4 texto.tam)) := by
  have h := copiaNombre_sinEspacio texto (texto.tam + 1) ⟨tamNombre, basura⟩ 4 0
    (by omega) (by omega) hno (by simp; omega)
  simp [obtenNombreArchivo, h]

/-- C7 (corrected): for every buffer of `n` bytes whose first space at an index
from 4 on is at index `k < n` (with room for `k - 4` bytes and the terminator
in the name block), `obtenNombreArchivo` returns, having made no access outside
a block (every such access is an error outcome of the embedding); the block
returned starts with the bytes `4 .. k-1` of the buffer; and the result is the
same for every other buffer that has more than `k` bytes and the same bytes at
the indices `4 .. k`: no index above `k` is read. -/
theorem obtenNombreArchivo_acotado (basura : Nat → Nat) (texto : Bloque) (k : Nat)
    (h4 : 4 ≤ k) (hk : k < texto.tam) (hesp : texto.dat k = 32)
    (hprimero : ∀ i, 4 ≤ i → i < k → texto.dat i ≠ 32) (hcabe : k - 4 + 1 < tamNombre) :
    (∃ nombre, obtenNombreArchivo basura texto = .ok nombre ∧
      ∀ m, m < k - 4 → nombre.dat m = texto.dat (4 + m)) ∧
    (∀ otro : Bloque, k < otro.tam → (∀ i, 4 ≤ i → i ≤ k → otro.dat i = texto.dat i) →
      obtenNombreArchivo basura otro = obtenNombreArchivo basura texto) := by
  have e : 4 + (k - 4) = k := by omega
  constructor
  · obtain ⟨nombre, hn, _, hcop, _⟩ := obtenNombreArchivo_ok basura texto (k - 4)
      (by omega) (by rw [e]; exact hesp) (fun m hm => hprimero (4 + m) (by omega) (by omega))
      hcabe
    exact ⟨nombre, hn, hcop⟩
  · intro otro hko hig
    have hc := copiaNombre_congr texto otro (k - 4) (texto.tam + 1) (otro.tam + 1)
      ⟨tamNombre, basura⟩ 4 0 (by omega) (by omega) (by omega) (by omega)
      (fun m hm => hig (4 + m) (by omega) (by omega)) (by rw [e]; exact hesp)
      (fun m hm => hprimero (4 + m) (by omega) (by omega))
    simp only [obtenNombreArchivo, hc]

/-- C7, instance: the buffer "GET / HTTP/1.1", first space from index 4 on at index 5. -/
theorem obtenNombreArchivo_acotado_witness :
    (∃ nombre, obtenNombreArchivo (fun _ => 0) (Bloque.deLista (bytes "GET / HTTP/1.1")) = .ok nombre ∧
      ∀ m, m < 5 - 4 → nombre.dat m = (Bloque.deLista (bytes "GET / HTTP/1.1")).dat (4 + m)) ∧
    (∀ otro : Bloque, 5 < otro.tam →
      (∀ i, 4 ≤ i → i ≤ 5 → otro.dat i = (Bloque.deLista (bytes "GET / HTTP/1.1")).dat i) →
      obtenNombreArchivo (fun _ => 0) otro
        = obtenNombreArchivo (fun _ => 0) (Bloque.deLista (bytes "GET / HTTP/1.1"))) :=
  obtenNombreArchivo_acotado (fun _ => 0) (Bloque.deLista (bytes "GET / HTTP/1.1")) 5
    (by decide) (by decide) (by decide)
    (fun i h1 h2 => by
      have hi : i = 4 := by omega
      subst hi
      decide)
    (by decide)

/-! ## Port selection: claim C10 -/

/-- C10: with the random flag set, for every non-negative value `azar` of
`rand()` the port chosen is `(azar % 63536) + 2000`, it lies between 2000 and
65535, and the 16-bit parameter of `htons` holds it unchanged; with the flag
clear the port is 8000 when no port (or port 0) was given and the given port
otherwise; `main` passes that port to `abreConexion`. -/
theorem puertoElegido_rango (quiet aleat puerto azar : Int) (e : EntornoServidor)
    (hazar : 0 ≤ azar) :
    (aleat ≠ 0 → puertoElegido aleat puerto azar = (azar % 63536) + 2000 ∧
      2000 ≤ puertoElegido aleat puerto azar ∧
      puertoElegido aleat puerto azar ≤ 65535 ∧
      htons (puertoElegido aleat puerto azar) = puertoElegido aleat puerto azar) ∧
    (aleat = 0 → puerto = 0 → puertoElegido aleat puerto azar = 8000) ∧
    (aleat = 0 → puerto ≠ 0 → puertoElegido aleat puerto azar = puerto) ∧
    main quiet aleat puerto azar e
      = Proc.bind (emite (.printf "%sSe abre la conexión al puerto %d%s\n" []))
          (fun _ => abreConexion quiet (puertoElegido aleat puerto azar) e) := by
  refine ⟨?_, ?_, ?_, rfl⟩
  · intro ha
    have h1 : Int.tmod azar 63536 = azar % 63536 := Int.tmod_eq_emod hazar (by decide)
    have heq : puertoElegido aleat puerto azar = (azar % 63536) + 2000 := by
      simp only [puertoElegido, ha, ne_eq, not_false_eq_true, if_true, h1]
    refine ⟨heq, ?_, ?_, ?_⟩
    · rw [heq]; omega
    · rw [heq]; omega
    · rw [heq]; simp only [htons]; omega
  · intro ha hp
    simp [puertoElegido, ha, hp]
  · intro ha hp
    simp [puertoElegido, ha, hp]

/-- C10, instance: `rand()` returns 2147483647 with the random flag set; the
port is 2147483647 % 63536 + 2000 = 32383. -/
theorem puertoElegido_rango_witness :
    (0 : Int) ≤ 2147483647 ∧
      puertoElegido 1 0 2147483647 = (2147483647 % 63536) + 2000 ∧
      2000 ≤ puertoElegido 1 0 2147483647 ∧
      puertoElegido 1 0 2147483647 ≤ 65535 ∧
      htons (puertoElegido 1 0 2147483647) = puertoElegido 1 0 2147483647 :=
  ⟨by decide, (puertoElegido_rango 1 1 0 2147483647 ⟨3, 0, 0, []⟩ (by decide)).1 (by decide)⟩

/-! ## The handler: claims C2, C3, C4, C5 and C8 -/

/-- The two runs of `manejaPeticion`, by the sign of the value of `read`. -/
theorem manejaPeticion_casos (quiet fd : Int) (e : Entorno) :
    manejaPeticion quiet fd e =
      if e.lectura < 0 then
        ⟨[.read fd, .stderr "No pudo leerse el mensaje del cliente"], .sale 1⟩
      else
        ⟨.read fd :: (trasLectura quiet fd e).traza, (trasLectura quiet fd e).fin⟩ := by
  by_cases h : e.lectura < 0
  · simp [manejaPeticion, verifica, falla, sale, emite, bind, Proc.bind, h]
  · simp [manejaPeticion, verifica, emite, bind, Proc.bind, pure, h]

/-- C5 (corrected): a negative value of `read` ends the worker with the
diagnostic and `exit(1)`, with no parse and no `write`; every other value,
zero included, passes the check and the handler goes on with lines 214-268,
which start with the parse. -/
theorem manejaPeticion_lectura (quiet fd : Int) (e : Entorno) :
    manejaPeticion quiet fd e =
      if e.lectura < 0 then
        ⟨[.read fd, .stderr "No pudo leerse el mensaje del cliente"], .sale 1⟩
      else
        ⟨.read fd :: (trasLectura quiet fd e).traza, (trasLectura quiet fd e).fin⟩ := by
  by_cases h : e.lectura < 0
  · simp [manejaPeticion, verifica, falla, sale, emite, bind, Proc.bind, h]
  · simp [manejaPeticion, verifica, emite, bind, Proc.bind, pure, h]

/-- C5 (counterexample): `read` returns 0 and the array `mensaje` holds the
bytes of an earlier request; the handler does not exit: it parses the array,
opens the file and writes a 200 response. -/
theorem manejaPeticion_lectura_cero :
    manejaPeticion 1 5
      { entornoDe (bytes "GET / HTTP/1.1\r\n\r\n") 0
          [(bytes "html/index.html", bytes "<h1>Hi</h1>")] with lectura := 0 }
    = ⟨[.read 5, .fopen (bytes "html/index.html"), .fclose,
        .write 5 (bytes "HTTP/1.1 200 OK\r\n\n<h1>Hi</h1>")], .retorna ()⟩ := rfl

/-- C8 (code defect, evaluated): the request "GET /no HTTP/1.1" with neither
"html/no" nor "error" in the file system: the second `leeArchivo` returns
NULL, `strcat` dereferences it, and no `write` is issued. -/
theorem manejaPeticion_sin_error :
    manejaPeticion 1 5 (entornoDe (bytes "GET /no HTTP/1.1\r\n\r\n") 0 [])
    = ⟨[.read 5, .fopen (bytes "html/no"), .fopen (bytes "error")],
        .anomalia .punteroNulo⟩ := rfl

/-- The run of lines 214-268 when the parse, the resolution of the name, the
first `leeArchivo` and the construction of the response all return: the
events of the two latter, one `write` of the C string of `respuesta`, and the
check of its result. -/
theorem trasLectura_escribe (quiet fd : Int) (e : Entorno) (nombre completo : Bloque)
    (s f x : List Nat) (t1 t2 : List Evento) (contenido : Option Bloque) (respuesta : Bloque)
    (himp : quiet = 0 → cadena ⟨tamMensaje, e.mensaje⟩ = .ok s)
    (hnombre : obtenNombreArchivo e.basuraNombre ⟨tamMensaje, e.mensaje⟩ = .ok nombre)
    (hcompleto : nombreCompleto e.basuraCompleto nombre = .ok completo)
    (hf : cadena completo = .ok f)
    (hlee : leeArchivo e.fs e.basuraContenido f = ⟨t1, .retorna contenido⟩)
    (hresp : construyeRespuesta quiet e contenido = ⟨t2, .retorna respuesta⟩)
    (hx : cadena respuesta = .ok x) :
    trasLectura quiet fd e =
      ⟨(if quiet = 0 then [Evento.printf "\n%sPeticion:\n%s%s\n" s] else []) ++ t1 ++ t2
          ++ [Evento.write fd x]
          ++ (if quiet = 0 then [Evento.printf "\n%sRespuesta:\n%s%s\n" x] else [])
          ++ (if e.escritura < 0
                then [Evento.stderr "No pudo escribirse la respuesta en el socket"] else []),
        if e.escritura < 0 then .sale 1 else .retorna ()⟩ := by
  by_cases hq : quiet = 0
  · have hm := himp hq
    by_cases hw : e.escritura < 0
    · simp [trasLectura, hq, hm, hnombre, hcompleto, hf, hlee, hq ▸ hresp, hx, hw, verifica,
        falla, sale, emite, puro, bind, Proc.bind, pure]
    · simp [trasLectura, hq, hm, hnombre, hcompleto, hf, hlee, hq ▸ hresp, hx, hw, verifica,
        falla, sale, emite, puro, bind, Proc.bind, pure]
  · by_cases hw : e.escritura < 0
    · simp [trasLectura, hq, hnombre, hcompleto, hf, hlee, hresp, hx, hw, verifica,
        falla, sale, emite, puro, bind, Proc.bind, pure]
    · simp [trasLectura, hq, hnombre, hcompleto, hf, hlee, hresp, hx, hw, verifica,
        falla, sale, emite, puro, bind, Proc.bind, pure]

theorem escritos_append (t u : List Evento) : escritos (t ++ u) = escritos t ++ escritos u := by
  induction t with
  | nil => rfl
  | cons ev t ih => cases ev <;> simp [escritos, ih]

/-- The block `respuesta` on the 200 branch: the C string of `respuesta` is the
header followed by the C string of `contenido`. -/
theorem construyeRespuesta_200 (quiet : Int) (e : Entorno) (b : Bloque) (c : List Nat)
    (hc : cadena b = .ok c) (hcabe : c.length + 19 ≤ tamRespuesta) :
    ∃ r, construyeRespuesta quiet e (some b) = ⟨[], .retorna r⟩ ∧
      cadena r = .ok (bytes "HTTP/1.1 200 OK\r\n\n" ++ c) := by
  have hlen : (bytes "HTTP/1.1 200 OK\r\n\n").length = 18 := by decide
  have hnz : ∀ x ∈ bytes "HTTP/1.1 200 OK\r\n\n", x ≠ 0 := by decide
  obtain ⟨r1, h1, ht1, hc1⟩ := strcpy_ok ⟨tamRespuesta, e.basuraRespuesta⟩
    (bytes "HTTP/1.1 200 OK\r\n\n") (by rw [hlen]; simp [tamRespuesta]) hnz
  obtain ⟨r2, h2, _, hc2⟩ := strcat_ok r1 (bytes "HTTP/1.1 200 OK\r\n\n") c hc1
    (by rw [ht1, hlen]; simp only []; omega) (cadena_inv b c hc).2.2.1
  exact ⟨r2, by simp [construyeRespuesta, h1, hc, h2, puro, bind, Proc.bind], hc2⟩

/-- The block `respuesta` on the 404 branch when the file "error" opens. -/
theorem construyeRespuesta_404 (quiet : Int) (e : Entorno) (b : Bloque) (c : List Nat)
    (t : List Evento) (hlee : leeArchivo e.fs e.basuraError (bytes "error") = ⟨t, .retorna (some b)⟩)
    (hc : cadena b = .ok c) (hcabe : c.length + 26 ≤ tamRespuesta) :
    ∃ r, construyeRespuesta quiet e none
        = ⟨t ++ (if quiet = 0 then [Evento.printf "%sNo se encontró el archivo%s\n" []] else []),
            .retorna r⟩ ∧
      cadena r = .ok (bytes "HTTP/1.1 404 Not Found\r\n\n" ++ c) := by
  have hlen : (bytes "HTTP/1.1 404 Not Found\r\n\n").length = 25 := by decide
  have hnz : ∀ x ∈ bytes "HTTP/1.1 404 Not Found\r\n\n", x ≠ 0 := by decide
  obtain ⟨r1, h1, ht1, hc1⟩ := strcpy_ok ⟨tamRespuesta, e.basuraRespuesta⟩
    (bytes "HTTP/1.1 404 Not Found\r\n\n") (by rw [hlen]; simp [tamRespuesta]) hnz
  obtain ⟨r2, h2, _, hc2⟩ := strcat_ok r1 (bytes "HTTP/1.1 404 Not Found\r\n\n") c hc1
    (by rw [ht1, hlen]; simp only []; omega) (cadena_inv b c hc).2.2.1
  refine ⟨r2, ?_, hc2⟩
  by_cases hq : quiet = 0
  · simp [construyeRespuesta, hlee, h1, hc, h2, hq, puro, emite, bind, Proc.bind, pure]
  · simp [construyeRespuesta, hlee, h1, hc, h2, hq, puro, emite, bind, Proc.bind, pure]

theorem nombreResuelto_inv (e : Entorno) (f : List Nat) (h : nombreResuelto e = .ok f) :
    ∃ nombre completo, obtenNombreArchivo e.basuraNombre ⟨tamMensaje, e.mensaje⟩ = .ok nombre ∧
      nombreCompleto e.basuraCompleto nombre = .ok completo ∧ cadena completo = .ok f := by
  unfold nombreResuelto at h
  cases h1 : obtenNombreArchivo e.basuraNombre ⟨tamMensaje, e.mensaje⟩ with
  | error a => rw [h1] at h; simp at h
  | ok nombre =>
    rw [h1] at h
    simp only at h
    cases h2 : nombreCompleto e.basuraCompleto nombre with
    | error a => rw [h2] at h; simp [cadenaDe] at h
    | ok completo =>
      rw [h2] at h
      exact ⟨nombre, completo, rfl, h2, h⟩

/-- The bytes of the one `write` on the 200 branch: the header, the bytes `c`
of the file, and the byte the allocator left right after them in the block of
`leeArchivo`, unless that byte is NUL. -/
theorem manejaPeticion_200_escritos (quiet fd : Int) (e : Entorno) (s f c : List Nat)
    (hlectura : 0 ≤ e.lectura)
    (himp : quiet = 0 → cadena ⟨tamMensaje, e.mensaje⟩ = .ok s)
    (hres : nombreResuelto e = .ok f)
    (habre : e.fs f = some c)
    (hnul : ∀ x ∈ c, x ≠ 0)
    (hcabe : c.length + 20 ≤ tamRespuesta) :
    escritos (manejaPeticion quiet fd e).traza
      = [(fd, bytes "HTTP/1.1 200 OK\r\n\n" ++
          (c ++ if e.basuraContenido c.length = 0 then [] else [e.basuraContenido c.length]))] := by
  obtain ⟨nombre, completo, hnombre, hcompleto, hf⟩ := nombreResuelto_inv e f hres
  obtain ⟨b, hb, ht, hd, hg, hz⟩ := leeArchivo_abre e.fs e.basuraContenido f c habre
    (by simp only [tamRespuesta, tamContenido] at *; omega)
  have hcad := cadena_conResto b c (by rw [ht]; simp only [tamRespuesta, tamContenido] at *; omega)
    hd hnul hz
  rw [hg] at hcad
  obtain ⟨r, hr, hx⟩ := construyeRespuesta_200 quiet e b _ hcad
    (by simp only [List.length_append]; split <;> simp <;> omega)
  have hrun := trasLectura_escribe quiet fd e nombre completo s f _ _ _ _ r himp hnombre
    hcompleto hf hb hr hx
  have hneg : ¬ e.lectura < 0 := by omega
  rw [manejaPeticion_casos, if_neg hneg, hrun]
  by_cases hq : quiet = 0 <;> by_cases hw : e.escritura < 0 <;>
    simp [escritos, escritos_append, hq, hw]

/-- C2 (corrected): when the name resolved from the request opens as a file
whose bytes `c` contain no NUL and fit in the response block, the handler
issues exactly one `write`, on the connection, and its bytes start with
"HTTP/1.1 200 OK", "\r\n\n" and `c`. (When not quiet, the array `mensaje`
must hold a C string `s` for the `printf` of the request.) -/
theorem manejaPeticion_200 (quiet fd : Int) (e : Entorno) (s f c : List Nat)
    (hlectura : 0 ≤ e.lectura)
    (himp : quiet = 0 → cadena ⟨tamMensaje, e.mensaje⟩ = .ok s)
    (hres : nombreResuelto e = .ok f)
    (habre : e.fs f = some c)
    (hnul : ∀ x ∈ c, x ≠ 0)
    (hcabe : c.length + 20 ≤ tamRespuesta) :
    ∃ resto, escritos (manejaPeticion quiet fd e).traza
      = [(fd, bytes "HTTP/1.1 200 OK\r\n\n" ++ c ++ resto)] := by
  refine ⟨if e.basuraContenido c.length = 0 then [] else [e.basuraContenido c.length], ?_⟩
  rw [manejaPeticion_200_escritos quiet fd e s f c hlectura himp hres habre hnul hcabe,
    List.append_assoc]

/-- C2, instance: "GET / HTTP/1.1" with "html/index.html" holding "<h1>Hi</h1>". -/
theorem manejaPeticion_200_witness :
    ∃ resto, escritos (manejaPeticion 0 5 (entornoDe (bytes "GET / HTTP/1.1\r\n\r\n") 0
        [(bytes "html/index.html", bytes "<h1>Hi</h1>")])).traza
      = [(5, bytes "HTTP/1.1 200 OK\r\n\n" ++ bytes "<h1>Hi</h1>" ++ resto)] :=
  manejaPeticion_200 0 5 (entornoDe (bytes "GET / HTTP/1.1\r\n\r\n") 0
      [(bytes "html/index.html", bytes "<h1>Hi</h1>")]) (bytes "GET / HTTP/1.1\r\n\r\n")
    (bytes "html/index.html") (bytes "<h1>Hi</h1>") (by decide) (fun _ => rfl) rfl rfl
    (by decide) (by decide)

/-- C2 (counterexample): the file "html/a" holds the three bytes 'A', NUL,
'B'; every block from the allocator is zero-filled. The bytes written are the
header and 'A' only. -/
theorem manejaPeticion_200_nul :
    manejaPeticion 1 5 (entornoDe (bytes "GET /a HTTP/1.1\r\n\r\n") 0 [(bytes "html/a", [65, 0, 66])])
    = ⟨[.read 5, .fopen (bytes "html/a"), .fclose, .write 5 (bytes "HTTP/1.1 200 OK\r\n\n" ++ [65])],
        .retorna ()⟩ := rfl

/-- The bytes of the one `write` on the 404 branch when the file "error"
opens: the header, the bytes `c` of that file, and the byte the allocator left
right after them in the block of `leeArchivo`, unless that byte is NUL. -/
theorem manejaPeticion_404_escritos (quiet fd : Int) (e : Entorno) (s f c : List Nat)
    (hlectura : 0 ≤ e.lectura)
    (himp : quiet = 0 → cadena ⟨tamMensaje, e.mensaje⟩ = .ok s)
    (hres : nombreResuelto e = .ok f)
    (hno : e.fs f = none)
    (herror : e.fs (bytes "error") = some c)
    (hnul : ∀ x ∈ c, x ≠ 0)
    (hcabe : c.length + 27 ≤ tamRespuesta) :
    escritos (manejaPeticion quiet fd e).traza
      = [(fd, bytes "HTTP/1.1 404 Not Found\r\n\n" ++
          (c ++ if e.basuraError c.length = 0 then [] else [e.basuraError c.length]))] := by
  obtain ⟨nombre, completo, hnombre, hcompleto, hf⟩ := nombreResuelto_inv e f hres
  obtain ⟨b, hb, ht, hd, hg, hz⟩ := leeArchivo_abre e.fs e.basuraError (bytes "error") c herror
    (by simp only [tamRespuesta, tamContenido] at *; omega)
  have hcad := cadena_conResto b c (by rw [ht]; simp only [tamRespuesta, tamContenido] at *; omega)
    hd hnul hz
  rw [hg] at hcad
  obtain ⟨r, hr, hx⟩ := construyeRespuesta_404 quiet e b _ _ hb hcad
    (by simp only [List.length_append]; split <;> simp <;> omega)
  have hrun := trasLectura_escribe quiet fd e nombre completo s f _ _ _ _ r himp hnombre
    hcompleto hf (leeArchivo_noAbre e.fs e.basuraContenido f hno) hr hx
  have hneg : ¬ e.lectura < 0 := by omega
  rw [manejaPeticion_casos, if_neg hneg, hrun]
  by_cases hq : quiet = 0 <;> by_cases hw : e.escritura < 0 <;>
    simp [escritos, escritos_append, hq, hw]

/-- The run of the handler when neither the resolved name nor the file "error"
opens: the second `leeArchivo` returns NULL, `strcat` dereferences it, and no
`write` is issued. -/
theorem manejaPeticion_sin_error_general (quiet fd : Int) (e : Entorno) (s f : List Nat)
    (hlectura : 0 ≤ e.lectura)
    (himp : quiet = 0 → cadena ⟨tamMensaje, e.mensaje⟩ = .ok s)
    (hres : nombreResuelto e = .ok f)
    (hno : e.fs f = none)
    (herror : e.fs (bytes "error") = none) :
    manejaPeticion quiet fd e
      = ⟨Evento.read fd :: ((if quiet = 0 then [Evento.printf "\n%sPeticion:\n%s%s\n" s] else [])
            ++ [Evento.fopen f, Evento.fopen (bytes "error")]),
          .anomalia .punteroNulo⟩ := by
  obtain ⟨nombre, completo, hnombre, hcompleto, hf⟩ := nombreResuelto_inv e f hres
  have h1 := leeArchivo_noAbre e.fs e.basuraContenido f hno
  have h2 := leeArchivo_noAbre e.fs e.basuraError (bytes "error") herror
  have hlen : (bytes "HTTP/1.1 404 Not Found\r\n\n").length = 25 := by decide
  obtain ⟨r1, hr1, _, _⟩ := strcpy_ok ⟨tamRespuesta, e.basuraRespuesta⟩
    (bytes "HTTP/1.1 404 Not Found\r\n\n") (by rw [hlen]; simp [tamRespuesta]) (by decide)
  have hneg : ¬ e.lectura < 0 := by omega
  rw [manejaPeticion_casos, if_neg hneg]
  by_cases hq : quiet = 0
  · have hm := himp hq
    simp [trasLectura, construyeRespuesta, hq, hm, hnombre, hcompleto, hf, h1, h2, hr1, puro,
      emite, bind, Proc.bind, pure]
  · simp [trasLectura, construyeRespuesta, hq, hnombre, hcompleto, hf, h1, h2, hr1, puro,
      emite, bind, Proc.bind, pure]

/-- C3 (corrected): when the name resolved from the request does not open and
the file "error" opens with bytes `c` that contain no NUL and fit in the
response block, the handler issues exactly one `write`, on the connection,
and its bytes start with "HTTP/1.1 404 Not Found", "\r\n\n" and `c`. (When
not quiet, the array `mensaje` must hold a C string `s`.) -/
theorem manejaPeticion_404 (quiet fd : Int) (e : Entorno) (s f c : List Nat)
    (hlectura : 0 ≤ e.lectura)
    (himp : quiet = 0 → cadena ⟨tamMensaje, e.mensaje⟩ = .ok s)
    (hres : nombreResuelto e = .ok f)
    (hno : e.fs f = none)
    (herror : e.fs (bytes "error") = some c)
    (hnul : ∀ x ∈ c, x ≠ 0)
    (hcabe : c.length + 27 ≤ tamRespuesta) :
    ∃ resto, escritos (manejaPeticion quiet fd e).traza
      = [(fd, bytes "HTTP/1.1 404 Not Found\r\n\n" ++ c ++ resto)] := by
  refine ⟨if e.basuraError c.length = 0 then [] else [e.basuraError c.length], ?_⟩
  rw [manejaPeticion_404_escritos quiet fd e s f c hlectura himp hres hno herror hnul hcabe,
    List.append_assoc]

/-- C3, instance: "GET /no HTTP/1.1" with no "html/no" and "error" holding "no hay". -/
theorem manejaPeticion_404_witness :
    ∃ resto, escritos (manejaPeticion 0 5 (entornoDe (bytes "GET /no HTTP/1.1\r\n\r\n") 0
        [(bytes "error", bytes "no hay")])).traza
      = [(5, bytes "HTTP/1.1 404 Not Found\r\n\n" ++ bytes "no hay" ++ resto)] :=
  manejaPeticion_404 0 5 (entornoDe (bytes "GET /no HTTP/1.1\r\n\r\n") 0
      [(bytes "error", bytes "no hay")]) (bytes "GET /no HTTP/1.1\r\n\r\n") (bytes "html/no")
    (bytes "no hay") (by decide) (fun _ => rfl) rfl rfl rfl (by decide) (by decide)

/-- C3 (counterexample): no file "html/no"; the file "error" holds the three
bytes 'E', NUL, 'F'; every block from the allocator is zero-filled. The bytes
written are the header and 'E' only. -/
theorem manejaPeticion_404_nul :
    manejaPeticion 1 5 (entornoDe (bytes "GET /no HTTP/1.1\r\n\r\n") 0 [(bytes "error", [69, 0, 70])])
    = ⟨[.read 5, .fopen (bytes "html/no"), .fopen (bytes "error"), .fclose,
        .write 5 (bytes "HTTP/1.1 404 Not Found\r\n\n" ++ [69])], .retorna ()⟩ := rfl

/-! ### The file name: claim C4 -/

theorem copiaNombre_inv (texto : Bloque) : ∀ (fuel : Nat) (nombre : Bloque) (i j : Nat)
    (n1 : Bloque) (j2 : Nat), copiaNombre texto fuel nombre i j = .ok (n1, j2) →
    n1.tam = nombre.tam ∧ j2 + i < j + texto.tam := by
  intro fuel
  induction fuel with
  | zero => intro nombre i j n1 j2 h; simp [copiaNombre] at h
  | succ fuel ih =>
    intro nombre i j n1 j2 h
    by_cases hi : i < texto.tam
    · by_cases he : texto.dat i = 32
      · simp [copiaNombre, lee_dentro hi, he] at h
        obtain ⟨h1, h2⟩ := h
        subst h1; subst h2
        exact ⟨rfl, by omega⟩
      · by_cases hj : j < nombre.tam
        · simp only [copiaNombre, lee_dentro hi, he, escribe_dentro _ hj, if_false] at h
          obtain ⟨h1, h2⟩ := ih _ _ _ _ _ h
          exact ⟨by simpa [Bloque.pon] using h1, by omega⟩
        · simp [copiaNombre, lee_dentro hi, he, escribe, hj] at h
    · simp [copiaNombre, lee_fuera (Nat.le_of_not_lt hi)] at h

/-- The block `obtenNombreArchivo` returns has 16384 bytes and a NUL at an
index `j+1` with `j + 4` inside the text. -/
theorem obtenNombreArchivo_inv (basura : Nat → Nat) (texto nombre : Bloque)
    (h : obtenNombreArchivo basura texto = .ok nombre) :
    nombre.tam = tamNombre ∧ ∃ j, j + 4 < texto.tam ∧ nombre.dat (j + 1) = 0 := by
  simp only [obtenNombreArchivo] at h
  cases hc : copiaNombre texto (texto.tam + 1) ⟨tamNombre, basura⟩ 4 0 with
  | error a => rw [hc] at h; simp at h
  | ok r =>
    obtain ⟨n1, j⟩ := r
    rw [hc] at h
    obtain ⟨h1, h2⟩ := copiaNombre_inv texto _ _ _ _ _ _ hc
    by_cases hj : j + 1 < n1.tam
    · simp only [escribe_dentro 0 hj, Except.ok.injEq] at h
      subst h
      exact ⟨by simpa [Bloque.pon] using h1, j, by omega, by simp [Bloque.pon]⟩
    · simp [escribe, hj] at h

/-- The parsed path is shorter than the array it was parsed from. -/
theorem nombreAnalizado_inv (e : Entorno) (p : List Nat) (h : nombreAnalizado e = .ok p) :
    ∃ nombre, obtenNombreArchivo e.basuraNombre ⟨tamMensaje, e.mensaje⟩ = .ok nombre ∧
      cadena nombre = .ok p ∧ nombre.tam = tamNombre ∧ p.length + 3 ≤ tamMensaje := by
  unfold nombreAnalizado at h
  cases h1 : obtenNombreArchivo e.basuraNombre ⟨tamMensaje, e.mensaje⟩ with
  | error a => rw [h1] at h; simp [cadenaDe] at h
  | ok nombre =>
    rw [h1] at h
    simp only [cadenaDe] at h
    obtain ⟨ht, j, hj, hz⟩ := obtenNombreArchivo_inv _ _ _ h1
    obtain ⟨_, hd, hnz, _⟩ := cadena_inv nombre p h
    refine ⟨nombre, rfl, h, ht, ?_⟩
    by_contra hcon
    have hlt : j + 1 < p.length := by simp only [] at hj; omega
    have h2 := hd (j + 1) hlt
    rw [hz, List.getD_eq_getElem _ _ hlt] at h2
    exact hnz _ (List.getElem_mem hlt) h2.symm

/-- The name `nombreCompleto` builds: the default document when
`nombreArchivo[1]` is NUL, "html" followed by the parsed name otherwise. -/
theorem nombreCompleto_cadena (basura : Nat → Nat) (nombre : Bloque) (p : List Nat)
    (hp : cadena nombre = .ok p) (ht : 1 < nombre.tam) (hcabe : p.length + 5 ≤ tamRespuesta) :
    cadenaDe (nombreCompleto basura nombre)
      = .ok (if nombre.dat 1 = 0 then bytes "html/index.html" else bytes "html" ++ p) := by
  have hlen : (bytes "html").length = 4 := by decide
  have hnz : ∀ x ∈ bytes "html", x ≠ 0 := by decide
  obtain ⟨r1, h1, ht1, hc1⟩ := strcpy_ok ⟨tamRespuesta, basura⟩ (bytes "html")
    (by rw [hlen]; simp [tamRespuesta]) hnz
  by_cases hz : nombre.dat 1 = 0
  · obtain ⟨r2, h2, _, hc2⟩ := strcat_ok r1 (bytes "html") (bytes "/index.html") hc1
      (by rw [ht1]; simp [tamRespuesta, bytes]) (by decide)
    have hcat : bytes "html" ++ bytes "/index.html" = bytes "html/index.html" := by decide
    rw [hcat] at hc2
    simp [nombreCompleto, h1, lee_dentro ht, hz, h2, cadenaDe, hc2, bind, Except.bind]
  · obtain ⟨r2, h2, _, hc2⟩ := strcat_ok r1 (bytes "html") p hc1
      (by rw [ht1, hlen]; simp only []; omega) (cadena_inv nombre p hp).2.2.1
    simp [nombreCompleto, h1, lee_dentro ht, hz, hp, h2, cadenaDe, hc2, bind, Except.bind]

theorem Proc.bind_traza {α β : Type} (p : Proc α) (k : α → Proc β) :
    ∃ t, (Proc.bind p k).traza = p.traza ++ t := by
  unfold Proc.bind
  cases p.fin with
  | retorna a => exact ⟨(k a).traza, rfl⟩
  | sale n => exact ⟨[], by simp⟩
  | anomalia x => exact ⟨[], by simp⟩
  | enCurso => exact ⟨[], by simp⟩

theorem leeArchivo_traza (fs : List Nat → Option (List Nat)) (basura : Nat → Nat) (f : List Nat) :
    ∃ t, (leeArchivo fs basura f).traza = Evento.fopen f :: t := by
  obtain ⟨t, ht⟩ := Proc.bind_traza (emite (Evento.fopen f)) (fun _ =>
    match fs f with
    | some bytesArchivo => do
      let contenido ← puro (escribeLista bytesArchivo ⟨tamContenido, basura⟩ 0)
      let contenido ← puro (escribe contenido (bytesArchivo.length + 1) 0)
      emite .fclose
      pure (some contenido)
    | none => pure none)
  exact ⟨t, ht⟩

/-- The first call after the parse is the `fopen` of the resolved name. -/
theorem trasLectura_abre (quiet fd : Int) (e : Entorno) (s f : List Nat)
    (himp : quiet = 0 → cadena ⟨tamMensaje, e.mensaje⟩ = .ok s)
    (hres : nombreResuelto e = .ok f) :
    ∃ t, (trasLectura quiet fd e).traza
      = (if quiet = 0 then [Evento.printf "\n%sPeticion:\n%s%s\n" s] else []) ++ Evento.fopen f :: t := by
  obtain ⟨nombre, completo, hnombre, hcompleto, hf⟩ := nombreResuelto_inv e f hres
  obtain ⟨t1, ht1⟩ := leeArchivo_traza e.fs e.basuraContenido f
  rcases hL : leeArchivo e.fs e.basuraContenido f with ⟨tz, fn⟩
  rw [hL] at ht1
  simp only at ht1
  subst ht1
  by_cases hq : quiet = 0
  · have hm := himp hq
    cases fn <;>
      simp [trasLectura, hq, hm, hnombre, hcompleto, hf, hL, puro, emite, bind, Proc.bind, pure]
  · cases fn <;>
      simp [trasLectura, hq, hnombre, hcompleto, hf, hL, puro, emite, bind, Proc.bind, pure]

/-- C4 (corrected): for every parsed path `p` of at least one character, the
name of the first `fopen` of the handler is "html/index.html" when `p` has
exactly one character, whatever that character is, and "html" followed by `p`
when `p` has two characters or more. (When not quiet, the array `mensaje`
must hold a C string `s`.) -/
theorem manejaPeticion_nombre (quiet fd : Int) (e : Entorno) (s p : List Nat)
    (hlectura : 0 ≤ e.lectura)
    (himp : quiet = 0 → cadena ⟨tamMensaje, e.mensaje⟩ = .ok s)
    (hp : nombreAnalizado e = .ok p)
    (hpos : 1 ≤ p.length) :
    (abiertos (manejaPeticion quiet fd e).traza).head?
      = some (if p.length = 1 then bytes "html/index.html" else bytes "html" ++ p) := by
  obtain ⟨nombre, hnombre, hcad, ht, hlen⟩ := nombreAnalizado_inv e p hp
  obtain ⟨_, hd, hnz, hz⟩ := cadena_inv nombre p hcad
  have hcompleto := nombreCompleto_cadena e.basuraCompleto nombre p hcad
    (by rw [ht]; decide) (by simp only [tamMensaje, tamRespuesta] at *; omega)
  have hsel : (if nombre.dat 1 = 0 then bytes "html/index.html" else bytes "html" ++ p)
      = (if p.length = 1 then bytes "html/index.html" else bytes "html" ++ p) := by
    by_cases h1 : p.length = 1
    · rw [h1] at hz
      simp [h1, hz]
    · have h2 : 1 < p.length := by omega
      have hne : nombre.dat 1 ≠ 0 := by
        rw [hd 1 h2, List.getD_eq_getElem _ _ h2]
        exact hnz _ (List.getElem_mem h2)
      simp [h1, hne]
  rw [hsel] at hcompleto
  have hres : nombreResuelto e
      = .ok (if p.length = 1 then bytes "html/index.html" else bytes "html" ++ p) := by
    simp only [nombreResuelto, hnombre]
    exact hcompleto
  obtain ⟨t, htr⟩ := trasLectura_abre quiet fd e s _ himp hres
  have hneg : ¬ e.lectura < 0 := by omega
  rw [manejaPeticion_casos, if_neg hneg]
  simp only [htr]
  by_cases hq : quiet = 0 <;> simp [abiertos, hq]

/-- C4, instance: the request "GET /a.html HTTP/1.1". -/
theorem manejaPeticion_nombre_witness :
    (abiertos (manejaPeticion 0 5 (entornoDe (bytes "GET /a.html HTTP/1.1\r\n\r\n") 0 [])).traza).head?
      = some (if (bytes "/a.html").length = 1 then bytes "html/index.html"
          else bytes "html" ++ bytes "/a.html") :=
  manejaPeticion_nombre 0 5 (entornoDe (bytes "GET /a.html HTTP/1.1\r\n\r\n") 0 [])
    (bytes "GET /a.html HTTP/1.1\r\n\r\n") (bytes "/a.html") (by decide) (fun _ => rfl) rfl
    (by decide)

/-- C4 (counterexample): for the request "GET x HTTP/1.1" the parsed path is
the one-character string "x", not "/", and the file opened is
"html/index.html", not "htmlx". -/
theorem manejaPeticion_nombre_x :
    nombreAnalizado (entornoDe (bytes "GET x HTTP/1.1\r\n\r\n") 0
        [(bytes "html/index.html", bytes "<h1>Hi</h1>")]) = .ok (bytes "x") ∧
    abiertos (manejaPeticion 1 5 (entornoDe (bytes "GET x HTTP/1.1\r\n\r\n") 0
        [(bytes "html/index.html", bytes "<h1>Hi</h1>")])).traza = [bytes "html/index.html"] ∧
    bytes "html/index.html" ≠ bytes "html" ++ bytes "x" :=
  ⟨rfl, rfl, by decide⟩

/-! ## Descriptors: claim C9 -/

theorem sinClose_bind {α β : Type} (p : Proc α) (k : α → Proc β) (hp : SinClose p)
    (hk : ∀ a, SinClose (k a)) : SinClose (p >>= k) := by
  intro ev hev
  have hb : (p >>= k) = Proc.bind p k := rfl
  rw [hb] at hev
  unfold Proc.bind at hev
  cases hfin : p.fin with
  | retorna a =>
    rw [hfin] at hev
    rcases List.mem_append.mp hev with h | h
    · exact hp ev h
    · exact hk a ev h
  | sale n => rw [hfin] at hev; exact hp ev hev
  | anomalia x => rw [hfin] at hev; exact hp ev hev
  | enCurso => rw [hfin] at hev; exact hp ev hev

theorem sinClose_pure {α : Type} (a : α) : SinClose (pure a : Proc α) := by
  intro ev hev
  exact absurd hev (List.not_mem_nil ev)

theorem sinClose_puro {α : Type} (x : Except Anomalia α) : SinClose (puro x) := by
  intro ev hev
  cases x <;> exact absurd hev (List.not_mem_nil ev)

theorem sinClose_emite (ev : Evento) (h : ∀ fd, ev ≠ Evento.close fd) : SinClose (emite ev) := by
  intro ev2 hev
  have : ev2 = ev := by simpa [emite] using hev
  rw [this]; exact h

theorem sinClose_verifica (n : Int) (m : String) : SinClose (verifica n m) := by
  intro ev hev fd
  unfold verifica at hev
  split at hev
  · have : ev = Evento.stderr m := by
      simpa [falla, sale, emite, bind, Proc.bind] using hev
    rw [this]; simp
  · exact absurd hev (List.not_mem_nil ev)

theorem sinClose_leeArchivo (fs : List Nat → Option (List Nat)) (basura : Nat → Nat)
    (f : List Nat) : SinClose (leeArchivo fs basura f) := by
  unfold leeArchivo
  apply sinClose_bind _ _ (sinClose_emite _ (by simp))
  intro _
  split
  · apply sinClose_bind _ _ (sinClose_puro _)
    intro _
    apply sinClose_bind _ _ (sinClose_puro _)
    intro _
    apply sinClose_bind _ _ (sinClose_emite _ (by simp))
    intro _
    exact sinClose_pure _
  · exact sinClose_pure _

theorem sinClose_construyeRespuesta (quiet : Int) (e : Entorno) (contenido : Option Bloque) :
    SinClose (construyeRespuesta quiet e contenido) := by
  unfold construyeRespuesta
  split
  · apply sinClose_bind _ _ (sinClose_puro _)
    intro _
    apply sinClose_bind _ _ (sinClose_puro _)
    intro _
    exact sinClose_puro _
  · apply sinClose_bind _ _ (sinClose_leeArchivo _ _ _)
    intro _
    apply sinClose_bind _ _ (sinClose_puro _)
    intro _
    split
    · exact sinClose_puro _
    · apply sinClose_bind _ _ (sinClose_puro _)
      intro _
      apply sinClose_bind _ _ (sinClose_puro _)
      intro _
      dsimp only
      split
      · apply sinClose_bind _ _ (sinClose_emite _ (by simp))
        intro _
        exact sinClose_pure _
      · apply sinClose_bind _ _ (sinClose_pure _)
        intro _
        exact sinClose_pure _

theorem sinClose_trasLectura (quiet fd : Int) (e : Entorno) :
    SinClose (trasLectura quiet fd e) := by
  unfold trasLectura
  dsimp only
  split
  on_goal 1 =>
    apply sinClose_bind _ _ (sinClose_puro _)
    intro _
    apply sinClose_bind _ _ (sinClose_emite _ (by simp))
    intro _
  on_goal 2 =>
    apply sinClose_bind _ _ (sinClose_pure _)
    intro _
  all_goals
    apply sinClose_bind _ _ (sinClose_puro _)
    intro _
    apply sinClose_bind _ _ (sinClose_puro _)
    intro _
    apply sinClose_bind _ _ (sinClose_puro _)
    intro _
    apply sinClose_bind _ _ (sinClose_leeArchivo _ _ _)
    intro _
    apply sinClose_bind _ _ (sinClose_construyeRespuesta _ _ _)
    intro _
    apply sinClose_bind _ _ (sinClose_puro _)
    intro _
    apply sinClose_bind _ _ (sinClose_emite _ (by simp))
    intro _
    first
      | (apply sinClose_bind _ _ (sinClose_puro _)
         intro _
         apply sinClose_bind _ _ (sinClose_emite _ (by simp))
         intro _
         exact sinClose_verifica _ _)
      | (apply sinClose_bind _ _ (sinClose_pure _)
         intro _
         exact sinClose_verifica _ _)

/-- The handler issues no `close`, on any path. -/
theorem sinClose_manejaPeticion (quiet fd : Int) (e : Entorno) :
    SinClose (manejaPeticion quiet fd e) := by
  unfold manejaPeticion
  apply sinClose_bind _ _ (sinClose_emite _ (by simp))
  intro _
  apply sinClose_bind _ _ (sinClose_verifica _ _)
  intro _
  exact sinClose_trasLectura _ _ _

theorem cierres_sinClose {α : Type} (p : Proc α) (h : SinClose p) (fd : Int) :
    cierres fd p.traza = 0 := by
  unfold cierres
  rw [List.count_eq_zero]
  intro hmem
  exact h _ hmem fd rfl

theorem manejaPeticion_traza_read (quiet fd : Int) (e : Entorno) :
    ∃ t, (manejaPeticion quiet fd e).traza = Evento.read fd :: t := by
  rw [manejaPeticion_casos]
  split
  · exact ⟨_, rfl⟩
  · exact ⟨_, rfl⟩

/-- C9 (corrected): after a successful `select` and `accept` of a descriptor
other than the listening one: the parent (positive `fork`) issues exactly one
`close` on the accepted descriptor and returns; when `fork` fails the process
exits with 1 and no `close`; the worker (`fork` zero)
closes the listening descriptor and then reads; when the handler returns the
worker issues exactly one `close` on the accepted descriptor and exits with
0; when the handler ends the worker by `exit` (a failed `read` or `write`)
the worker has issued no `close` on the accepted descriptor. -/
theorem aceptaConexion_cierres (quiet viejo : Int) (e : EntornoConexion)
    (hsel : 0 ≤ e.select) (hacc : 0 ≤ e.accept) (hdist : e.accept ≠ viejo) :
    (0 < e.fork →
      (aceptaConexion quiet viejo e).fin = .retorna () ∧
      cierres e.accept (aceptaConexion quiet viejo e).traza = 1) ∧
    (e.fork < 0 →
      (aceptaConexion quiet viejo e).fin = .sale 1 ∧
      cierres e.accept (aceptaConexion quiet viejo e).traza = 0) ∧
    (e.fork = 0 →
      (∃ t, (aceptaConexion quiet viejo e).traza
        = [.signal, .select viejo, .accept viejo, .fork, .close viejo, .read e.accept] ++ t) ∧
      ((manejaPeticion quiet e.accept e.peticion).fin = .retorna () →
        (aceptaConexion quiet viejo e).fin = .sale 0 ∧
        cierres e.accept (aceptaConexion quiet viejo e).traza = 1) ∧
      (∀ n, (manejaPeticion quiet e.accept e.peticion).fin = .sale n →
        (aceptaConexion quiet viejo e).fin = .sale n ∧
        cierres e.accept (aceptaConexion quiet viejo e).traza = 0)) := by
  have hs : ¬ e.select < 0 := by omega
  have ha : ¬ e.accept < 0 := by omega
  have hd2 : ¬ viejo = e.accept := fun h => hdist h.symm
  refine ⟨?_, ?_, ?_⟩
  · intro hf
    have hf1 : ¬ e.fork < 0 := by omega
    have hf2 : ¬ e.fork = 0 := by omega
    simp [aceptaConexion, verifica, emite, bind, Proc.bind, pure, hs, ha, hf1, hf2, cierres]
  · intro hf
    simp [aceptaConexion, verifica, falla, sale, emite, bind, Proc.bind, pure, hs, ha, hf,
      cierres]
  · intro hf
    have hcero := cierres_sinClose _ (sinClose_manejaPeticion quiet e.accept e.peticion) e.accept
    obtain ⟨t, ht⟩ := manejaPeticion_traza_read quiet e.accept e.peticion
    have heq : aceptaConexion quiet viejo e
        = Proc.bind ⟨[.signal, .select viejo, .accept viejo, .fork, .close viejo], .retorna ()⟩
            (fun _ => Proc.bind (manejaPeticion quiet e.accept e.peticion) (fun _ =>
              ⟨Evento.close e.accept :: (if quiet = 0 then
                  [Evento.printf "%sPetición manejada con éxito\nEsperando al cliente...%s\n" []]
                else []), .sale 0⟩)) := by
      by_cases hq : quiet = 0
      · simp [aceptaConexion, verifica, emite, sale, bind, Proc.bind, pure, hs, ha, hf, hq]
      · simp [aceptaConexion, verifica, emite, sale, bind, Proc.bind, pure, hs, ha, hf, hq]
    rw [heq]
    generalize manejaPeticion quiet e.accept e.peticion = m at hcero ht
    obtain ⟨tm, fm⟩ := m
    simp only at hcero ht
    subst ht
    simp only [cierres, List.count_cons] at hcero
    have hc0 : List.count (Evento.close e.accept) t = 0 := by omega
    by_cases hq : quiet = 0 <;> cases fm <;>
      simp [Proc.bind, cierres, List.count_cons, hd2, hc0, hq]

/-- C9, instance: the parent of a worker, and a worker that serves "GET / HTTP/1.1". -/
theorem aceptaConexion_cierres_witness :
    ((aceptaConexion 1 3 ⟨1, 4, 7, entornoDe [] 0 []⟩).fin = .retorna () ∧
      cierres 4 (aceptaConexion 1 3 ⟨1, 4, 7, entornoDe [] 0 []⟩).traza = 1) ∧
    ((aceptaConexion 1 3 ⟨1, 4, 0, entornoDe (bytes "GET / HTTP/1.1\r\n\r\n") 0
        [(bytes "html/index.html", bytes "<h1>Hi</h1>")]⟩).fin = .sale 0 ∧
      cierres 4 (aceptaConexion 1 3 ⟨1, 4, 0, entornoDe (bytes "GET / HTTP/1.1\r\n\r\n") 0
        [(bytes "html/index.html", bytes "<h1>Hi</h1>")]⟩).traza = 1) :=
  ⟨(aceptaConexion_cierres 1 3 ⟨1, 4, 7, entornoDe [] 0 []⟩ (by decide) (by decide)
      (by decide)).1 (by decide),
    ((aceptaConexion_cierres 1 3 ⟨1, 4, 0, entornoDe (bytes "GET / HTTP/1.1\r\n\r\n") 0
        [(bytes "html/index.html", bytes "<h1>Hi</h1>")]⟩ (by decide) (by decide)
      (by decide)).2.2 rfl).2.1 rfl⟩

/-- C9 (counterexample): in the worker (`fork` returns 0) `read` fails; the
worker leaves through `verifica` with `exit(1)` and its trace has no `close`
of the accepted descriptor 4. -/
theorem aceptaConexion_lectura_falla :
    aceptaConexion 1 3 ⟨1, 4, 0, { entornoDe [] 0 [] with lectura := -1 }⟩
      = ⟨[.signal, .select 3, .accept 3, .fork, .close 3, .read 4,
          .stderr "No pudo leerse el mensaje del cliente"], .sale 1⟩ ∧
    cierres 4 (aceptaConexion 1 3 ⟨1, 4, 0, { entornoDe [] 0 [] with lectura := -1 }⟩).traza = 0 :=
  ⟨rfl, rfl⟩

/-! ## Start-up: claim C6 -/

/-- C6 (code defect, evaluated): `listen` fails (returns -1) after a
successful `socket` and `bind`; the process does not exit and prints no
diagnostic: it enters the accept loop and serves a connection (here as the
parent of the worker). -/
theorem abreConexion_listen_falla :
    abreConexion 1 8000 ⟨3, 0, -1, [⟨1, 4, 7, entornoDe [] 0 []⟩]⟩
    = ⟨[.socket, .setsockopt 3, .bind 3 8000, .listen 3, .printf "%sEsperando al cliente...%s\n" [],
        .signal, .select 3, .accept 3, .fork, .close 4], .enCurso⟩ := rfl

/-- The run of `abreConexion` does not depend on the value `listen` returns. -/
theorem abreConexion_listen (quiet puerto : Int) (e : EntornoServidor) (valor : Int) :
    abreConexion quiet puerto { e with listen := valor } = abreConexion quiet puerto e := rfl

/-- A failed `bind` ends the process with the diagnostic and `exit(1)` before
`listen`. -/
theorem abreConexion_bind_falla (quiet puerto : Int) (e : EntornoServidor)
    (hsock : 0 ≤ e.socket) (hbind : e.bind < 0) :
    abreConexion quiet puerto e
      = ⟨[.socket, .setsockopt e.socket, .bind e.socket (htons puerto),
          .stderr "Error en el enlace. Intente con otro puerto, por favor"], .sale 1⟩ := by
  have hs : ¬ e.socket < 0 := by omega
  simp [abreConexion, verifica, falla, sale, emite, bind, Proc.bind, pure, hs, hbind]

/-! ## The scenarios of the specification -/

/-- Scenario 1: "html/index.html" holds "<h1>Hi</h1>" and the request is
"GET / HTTP/1.1" (zero-filled blocks, not quiet). -/
theorem escenario_1 :
    manejaPeticion 0 5 (entornoDe (bytes "GET / HTTP/1.1\r\n\r\n") 0
      [(bytes "html/index.html", bytes "<h1>Hi</h1>")])
    = ⟨[.read 5, .printf "\n%sPeticion:\n%s%s\n" (bytes "GET / HTTP/1.1\r\n\r\n"),
        .fopen (bytes "html/index.html"), .fclose,
        .write 5 (bytes "HTTP/1.1 200 OK\r\n\n<h1>Hi</h1>"),
        .printf "\n%sRespuesta:\n%s%s\n" (bytes "HTTP/1.1 200 OK\r\n\n<h1>Hi</h1>")],
        .retorna ()⟩ := rfl

/-- Scenario 2: the request "GET /missing.html HTTP/1.1" with no such file and
the file "error" holding "E" (zero-filled blocks, not quiet). -/
theorem escenario_2 :
    manejaPeticion 0 5 (entornoDe (bytes "GET /missing.html HTTP/1.1\r\n\r\n") 0
      [(bytes "html/index.html", bytes "<h1>Hi</h1>"), (bytes "error", bytes "E")])
    = ⟨[.read 5, .printf "\n%sPeticion:\n%s%s\n" (bytes "GET /missing.html HTTP/1.1\r\n\r\n"),
        .fopen (bytes "html/missing.html"), .fopen (bytes "error"), .fclose,
        .printf "%sNo se encontró el archivo%s\n" [],
        .write 5 (bytes "HTTP/1.1 404 Not Found\r\n\nE"),
        .printf "\n%sRespuesta:\n%s%s\n" (bytes "HTTP/1.1 404 Not Found\r\n\nE")],
        .retorna ()⟩ := rfl

end Feather
